import Mathlib

/-!
Verification development for the `bytedojo` LeetCode formatter pipeline
(`src/bytedojo/core/leetcode/formatters/python.py`), the problem data model
(`src/bytedojo/core/leetcode/models.py`) and the test executor
(`src/bytedojo/core/executor.py`).

Python strings are modelled as Lean `String` (a wrapper around `List Char`);
the Python string primitives used by the source (`split`, `strip`, `lstrip`,
`join`, `startswith`, `endswith`, `in`, `replace`, `lower`) are given explicit
executable models over `List Char`.  Regular-expression calls in the source
are hand-compiled, pattern by pattern, into deterministic character scanners
that realise the leftmost-match semantics of `re.search` / `re.finditer` for
those concrete patterns.
-/

set_option autoImplicit false

namespace ByteDojo

/-! ### Python string primitives -/

/-- The characters `str.strip()` and `\s` treat as whitespace (ASCII fragment,
which is all the repository's inputs use). -/
def pyWS (c : Char) : Bool :=
  c = ' ' || c = '\t' || c = '\n' || c = '\r' || c = '\x0b' || c = '\x0c'

/-- `\w` word characters (ASCII fragment). -/
def wordChar (c : Char) : Bool :=
  c.isAlphanum || c = '_'

def digitChar (c : Char) : Bool :=
  c.isDigit

/-- `str.lstrip()` on a character list. -/
def lstripL (l : List Char) : List Char := l.dropWhile pyWS

/-- `str.strip()` on a character list. -/
def stripL (l : List Char) : List Char :=
  ((l.dropWhile pyWS).reverse.dropWhile pyWS).reverse

/-- `str.lstrip('#')` on a character list. -/
def lstripHashL (l : List Char) : List Char := l.dropWhile (· = '#')

/-- `str.split(sep)` for a one-character separator (total, like Python's). -/
def splitCh (sep : Char) : List Char → List (List Char)
  | [] => [[]]
  | c :: rest =>
    let r := splitCh sep rest
    if c = sep then [] :: r
    else
      match r with
      | [] => [[c]]
      | h :: t => (c :: h) :: t

/-- `sep.join(parts)` for a one-character separator. -/
def joinCh (sep : Char) : List (List Char) → List Char
  | [] => []
  | [l] => l
  | l :: l' :: ls => l ++ sep :: joinCh sep (l' :: ls)

/-- Number of positions at which `pat` occurs in `l` (counts every start
position; used to state occurrence-count claims). -/
def countSub : List Char → List Char → Nat
  | pat, [] => if pat.isEmpty then 1 else 0
  | pat, c :: rest => (if pat.isPrefixOf (c :: rest) then 1 else 0) + countSub pat rest

/-- Python's `pat in s` substring test. -/
def hasSub : List Char → List Char → Bool
  | pat, [] => pat.isEmpty
  | pat, c :: rest => pat.isPrefixOf (c :: rest) || hasSub pat rest

/-- If `pat` is a prefix of `l`, the remainder of `l` after `pat`. -/
def stripPre? : List Char → List Char → Option (List Char)
  | [], l => some l
  | _ :: _, [] => none
  | p :: ps, c :: cs => if p = c then stripPre? ps cs else none

theorem stripPre?_length {pat l r : List Char} (h : stripPre? pat l = some r) :
    r.length + pat.length = l.length := by
  induction pat generalizing l with
  | nil => simp [stripPre?] at h; simp [h]
  | cons p ps ih =>
    cases l with
    | nil => simp [stripPre?] at h
    | cons c cs =>
      simp only [stripPre?] at h
      split at h
      · have := ih h
        simp [List.length_cons]
        omega
      · exact absurd h (by simp)

/-- Python `str.replace(pat, rep)`: leftmost, non-overlapping.  Written with
an explicit fuel (one unit per scanned position; after a nonempty match the
remainder is strictly shorter, so `fuel = l.length` never runs out) to keep
the recursion structural and hence kernel-evaluable.  (The source never calls
`replace` with an empty pattern; in that unused case this model leaves the
string unchanged.) -/
def replGo (pat rep : List Char) : Nat → List Char → List Char
  | _, [] => []
  | 0, l => l
  | fuel + 1, c :: rest =>
    match stripPre? pat (c :: rest) with
    | some rem =>
      if pat.isEmpty then c :: replGo pat rep fuel rest
      else rep ++ replGo pat rep fuel rem
    | none => c :: replGo pat rep fuel rest

def replL (pat rep l : List Char) : List Char := replGo pat rep l.length l

/-- Python `str.lower()` (ASCII fragment, via `Char.toLower`). -/
def lowerL (l : List Char) : List Char := l.map Char.toLower

/-! String-level wrappers.  A Lean `String` is a structure holding `data :
List Char`, so these wrappers are definitional round-trips. -/

def pyStrip (s : String) : String := ⟨stripL s.data⟩
def pyLStrip (s : String) : String := ⟨lstripL s.data⟩
def pyLStripHash (s : String) : String := ⟨lstripHashL s.data⟩
def pyLower (s : String) : String := ⟨lowerL s.data⟩
def pyReplace (pat rep s : String) : String := ⟨replL pat.data rep.data s.data⟩

/-- Python `len(line) - len(line.lstrip())`: the leading-whitespace width. -/
def indentOf (s : String) : Nat := (s.data.takeWhile pyWS).length

/-- Python `s.startswith(pat)`. -/
def strStarts (pat s : String) : Bool := pat.data.isPrefixOf s.data

/-- Python `s.endswith(pat)`. -/
def strEnds (pat s : String) : Bool := pat.data.reverse.isPrefixOf s.data.reverse

/-- Python `pat in s`. -/
def strHasSub (pat s : String) : Bool := hasSub pat.data s.data

/-- Number of start positions at which `pat` occurs in `s`. -/
def strCountSub (pat s : String) : Nat := countSub pat.data s.data

/-- Python `s and s.isspace()` guard used by the source: nonempty and
all-whitespace. -/
def pyIsSpace (s : String) : Bool := !s.data.isEmpty && s.data.all pyWS

/-- Python `code.split('\n')`. -/
def pyLines (s : String) : List String := (splitCh '\n' s.data).map String.mk

/-- Python `'\n'.join(lines)`. -/
def pyUnlines (ls : List String) : String := ⟨joinCh '\n' (ls.map String.data)⟩

/-- Python `', '.join(parts)` (or any string separator). -/
def pyJoinSep (sep : String) : List String → String
  | [] => ""
  | [l] => l
  | l :: l' :: ls => l ++ sep ++ pyJoinSep sep (l' :: ls)

/-! ### Lemmas about the primitives -/

theorem splitCh_ne_nil (sep : Char) (l : List Char) : splitCh sep l ≠ [] := by
  cases l with
  | nil => simp [splitCh]
  | cons c rest =>
    simp only [splitCh]
    split
    · simp
    · split <;> simp

theorem joinCh_splitCh (sep : Char) (l : List Char) :
    joinCh sep (splitCh sep l) = l := by
  induction l with
  | nil => rfl
  | cons c rest ih =>
    simp only [splitCh]
    split
    · rename_i hc
      have hne := splitCh_ne_nil sep rest
      cases h : splitCh sep rest with
      | nil => exact absurd h hne
      | cons h' t' =>
        rw [h] at ih
        simp only [joinCh]
        cases t' with
        | nil => simp only [joinCh] at ih ⊢; simp [hc, ih]
        | cons a b => simp only [joinCh] at ih ⊢; simp [hc, ih]
    · cases h : splitCh sep rest with
      | nil => exact absurd h (splitCh_ne_nil sep rest)
      | cons h' t' =>
        rw [h] at ih
        cases t' with
        | nil => simp only [joinCh] at ih ⊢; simp [ih]
        | cons a b => simp only [joinCh] at ih ⊢; simp [ih]

theorem not_mem_of_mem_splitCh {sep : Char} {l part : List Char}
    (h : part ∈ splitCh sep l) : sep ∉ part := by
  induction l generalizing part with
  | nil => simp [splitCh] at h; simp [h]
  | cons c rest ih =>
    simp only [splitCh] at h
    split at h
    · rcases List.mem_cons.mp h with h | h
      · simp [h]
      · exact ih h
    · rename_i hc
      cases hr : splitCh sep rest with
      | nil => exact absurd hr (splitCh_ne_nil sep rest)
      | cons h' t' =>
        rw [hr] at h
        rcases List.mem_cons.mp h with h | h
        · subst h
          intro hmem
          rcases List.mem_cons.mp hmem with h | h
          · exact hc h.symm
          · exact ih (hr ▸ List.mem_cons_self h' t') h
        · exact ih (hr ▸ List.mem_cons_of_mem h' h)

theorem splitCh_of_not_mem {sep : Char} {l : List Char} (h : sep ∉ l) :
    splitCh sep l = [l] := by
  induction l with
  | nil => rfl
  | cons c rest ih =>
    simp only [splitCh]
    have hc : ¬ c = sep := fun hc => h (by simp [hc])
    rw [if_neg hc, ih (fun hm => h (List.mem_cons_of_mem c hm))]

theorem splitCh_append_sep {sep : Char} {a rest : List Char} (h : sep ∉ a) :
    splitCh sep (a ++ sep :: rest) = a :: splitCh sep rest := by
  induction a with
  | nil => simp [splitCh]
  | cons c cs ih =>
    have hc : ¬ c = sep := fun hc => h (by simp [hc])
    have hcs : sep ∉ cs := fun hm => h (List.mem_cons_of_mem c hm)
    have ih' : splitCh sep (List.append cs (sep :: rest)) = cs :: splitCh sep rest := ih hcs
    simp only [List.cons_append, splitCh, if_neg hc, ih']

theorem splitCh_joinCh {sep : Char} {ls : List (List Char)} (hne : ls ≠ [])
    (h : ∀ l ∈ ls, sep ∉ l) : splitCh sep (joinCh sep ls) = ls := by
  induction ls with
  | nil => exact absurd rfl hne
  | cons a rest ih =>
    cases rest with
    | nil =>
      simp only [joinCh]
      exact splitCh_of_not_mem (h a (List.mem_cons_self a []))
    | cons b t =>
      simp only [joinCh]
      rw [splitCh_append_sep (h a (List.mem_cons_self a (b :: t)))]
      rw [ih (by simp) (fun l hl => h l (List.mem_cons_of_mem a hl))]

theorem pyUnlines_pyLines (s : String) : pyUnlines (pyLines s) = s := by
  show String.mk (joinCh '\n' (((splitCh '\n' s.data).map String.mk).map String.data)) = s
  rw [List.map_map]
  have : (String.data ∘ String.mk) = id := by funext l; rfl
  rw [this, List.map_id, joinCh_splitCh]

theorem isPrefixOf_append {p l u : List Char} (h : p.isPrefixOf l) :
    p.isPrefixOf (l ++ u) := by
  induction p generalizing l with
  | nil => simp [List.isPrefixOf]
  | cons a ps ih =>
    cases l with
    | nil => simp [List.isPrefixOf] at h
    | cons c cs =>
      simp only [List.isPrefixOf, List.cons_append, Bool.and_eq_true] at h ⊢
      exact ⟨h.1, ih h.2⟩

theorem hasSub_nil_pat (l : List Char) : hasSub [] l = true := by
  cases l <;> simp [hasSub, List.isPrefixOf]

theorem hasSub_append_left {pat t : List Char} (u : List Char)
    (h : hasSub pat t = true) : hasSub pat (u ++ t) = true := by
  induction u with
  | nil => exact h
  | cons c cs ih =>
    simp only [List.cons_append, hasSub, Bool.or_eq_true]
    exact Or.inr ih

theorem hasSub_append_right {pat t : List Char} (u : List Char)
    (h : hasSub pat t = true) : hasSub pat (t ++ u) = true := by
  induction t with
  | nil =>
    simp only [hasSub] at h
    have : pat = [] := by
      cases pat with
      | nil => rfl
      | cons _ _ => simp at h
    subst this
    exact hasSub_nil_pat u
  | cons c cs ih =>
    simp only [hasSub, Bool.or_eq_true, List.cons_append] at h ⊢
    rcases h with h | h
    · exact Or.inl (isPrefixOf_append h)
    · exact Or.inr (ih h)

theorem isPrefixOf_refl (l : List Char) : l.isPrefixOf l = true := by
  induction l with
  | nil => rfl
  | cons c cs ih => simp [List.isPrefixOf, ih]

theorem hasSub_refl (l : List Char) : hasSub l l = true := by
  cases l with
  | nil => rfl
  | cons c cs => simp [hasSub, isPrefixOf_refl]

/-- A string occurs in any surrounding context. -/
theorem hasSub_context (pat a b : List Char) :
    hasSub pat (a ++ pat ++ b) = true := by
  rw [List.append_assoc]
  exact hasSub_append_left a (hasSub_append_right b (hasSub_refl pat))

theorem strHasSub_append_left {pat t : String} (u : String)
    (h : strHasSub pat t = true) : strHasSub pat (u ++ t) = true :=
  hasSub_append_left u.data h

theorem strHasSub_append_right {pat t : String} (u : String)
    (h : strHasSub pat t = true) : strHasSub pat (t ++ u) = true :=
  hasSub_append_right u.data h

theorem strHasSub_refl (s : String) : strHasSub s s = true := hasSub_refl s.data

/-! ### Data model (`src/bytedojo/core/leetcode/models.py`) -/

/-- `CodeSnippet`: code snippet in a specific language. -/
structure CodeSnippet where
  lang : String
  code : String
deriving DecidableEq

/-- `Problem`: LeetCode problem data. -/
structure Problem where
  id : Nat
  title : String
  title_slug : String
  difficulty : String
  description : String
  test_cases : String
  code_snippets : List CodeSnippet
deriving DecidableEq

/-- Loop body of `Problem.get_snippet`: first snippet whose lowercased tag
equals the lowercased request. -/
def get_snippet_go (language : String) : List CodeSnippet → Option String
  | [] => none
  | s :: rest =>
    if pyLower s.lang = pyLower language then some s.code else get_snippet_go language rest

/-- `Problem.get_snippet`. -/
def get_snippet (p : Problem) (language : String) : Option String :=
  get_snippet_go language p.code_snippets

theorem get_snippet_go_congr {l₁ l₂ : String} (h : pyLower l₁ = pyLower l₂) :
    ∀ snippets, get_snippet_go l₁ snippets = get_snippet_go l₂ snippets := by
  intro snippets
  induction snippets with
  | nil => rfl
  | cons s rest ih => simp only [get_snippet_go, h, ih]

theorem get_snippet_go_none_iff (language : String) (snippets : List CodeSnippet) :
    get_snippet_go language snippets = none ↔
      ∀ s ∈ snippets, pyLower s.lang ≠ pyLower language := by
  induction snippets with
  | nil => simp [get_snippet_go]
  | cons s rest ih =>
    simp only [get_snippet_go]
    split
    · rename_i heq
      simp only [List.mem_cons]
      constructor
      · intro h; exact absurd h (by simp)
      · intro h; exact absurd heq (h s (Or.inl rfl))
    · rename_i hne
      simp only [List.mem_cons, ih]
      constructor
      · rintro h s' (rfl | hs')
        · exact hne
        · exact h s' hs'
      · intro h s' hs'
        exact h s' (Or.inr hs')

theorem get_snippet_go_first {language : String} {pre : List CodeSnippet}
    {s : CodeSnippet} {post : List CodeSnippet}
    (hpre : ∀ s' ∈ pre, pyLower s'.lang ≠ pyLower language)
    (hs : pyLower s.lang = pyLower language) :
    get_snippet_go language (pre ++ s :: post) = some s.code := by
  induction pre with
  | nil => simp [get_snippet_go, hs]
  | cons a rest ih =>
    simp only [List.cons_append, get_snippet_go]
    rw [if_neg (hpre a (List.mem_cons_self a rest))]
    exact ih (fun s' hs' => hpre s' (List.mem_cons_of_mem a hs'))

/-- C10: `get_snippet` returns the code of the first snippet whose language
tag matches the request case-insensitively, and `none` when no tag matches;
two requests that agree up to case are retrieved identically. -/
theorem get_snippet_case_insensitive_first_match :
    (∀ (p : Problem) (l₁ l₂ : String), pyLower l₁ = pyLower l₂ →
      get_snippet p l₁ = get_snippet p l₂) ∧
    (∀ (p : Problem) (language : String),
      get_snippet p language = none ↔
        ∀ s ∈ p.code_snippets, pyLower s.lang ≠ pyLower language) ∧
    (∀ (p : Problem) (language : String) (pre : List CodeSnippet)
        (s : CodeSnippet) (post : List CodeSnippet),
      p.code_snippets = pre ++ s :: post →
      (∀ s' ∈ pre, pyLower s'.lang ≠ pyLower language) →
      pyLower s.lang = pyLower language →
      get_snippet p language = some s.code) := by
  refine ⟨?_, ?_, ?_⟩
  · intro p l₁ l₂ h
    exact get_snippet_go_congr h p.code_snippets
  · intro p language
    exact get_snippet_go_none_iff language p.code_snippets
  · intro p language pre s post hsplit hpre hs
    show get_snippet_go language p.code_snippets = some s.code
    rw [hsplit]
    exact get_snippet_go_first hpre hs

/-- Witness for C10 on a concrete record: a snippet tagged `Python3` is found
by the request `python3` (skipping a non-matching snippet), and an unknown
language yields `none`. -/
theorem get_snippet_case_insensitive_first_match_witness :
    get_snippet ⟨1, "t", "t", "Easy", "", "",
      [⟨"cpp", "C"⟩, ⟨"Python3", "PY"⟩]⟩ "python3" = some "PY" ∧
    get_snippet ⟨1, "t", "t", "Easy", "", "",
      [⟨"cpp", "C"⟩, ⟨"Python3", "PY"⟩]⟩ "rust" = none := by
  constructor
  · exact get_snippet_case_insensitive_first_match.2.2
      ⟨1, "t", "t", "Easy", "", "", [⟨"cpp", "C"⟩, ⟨"Python3", "PY"⟩]⟩
      "python3" [⟨"cpp", "C"⟩] ⟨"Python3", "PY"⟩ [] rfl (by decide) (by decide)
  · exact (get_snippet_case_insensitive_first_match.2.1
      ⟨1, "t", "t", "Easy", "", "", [⟨"cpp", "C"⟩, ⟨"Python3", "PY"⟩]⟩
      "rust").mpr (by decide)

/-! ### Test executor (`src/bytedojo/core/executor.py`)

The subprocess boundary is modelled by an abstract outcome of the
`subprocess.run` call: normal completion with an exit code and captured
streams, the `subprocess.TimeoutExpired` event, or any other exception. -/

structure ExecutionResult where
  passed : Bool
  output : String
  error : Option String := none
  status : String := "untested"
deriving DecidableEq

inductive RunOutcome where
  | completed (returncode : Int) (stdout stderr : String)
  | timedOut
  | excepted (msg : String)

/-- `Executor.run_test`: missing file short-circuits; otherwise the outcome
of the subprocess call is classified exactly as in the source. -/
def run_test (file_exists : Bool) (outcome : RunOutcome) (timeout : Nat) :
    ExecutionResult :=
  if !file_exists then
    ⟨false, "", some "File not found", "error"⟩
  else
    match outcome with
    | .completed rc out err =>
      if rc = 0 then ⟨true, out, none, "passed"⟩
      else ⟨false, out, some err, "failed"⟩
    | .timedOut =>
      ⟨false, "", some ("Test timed out after " ++ toString timeout ++ " seconds"), "error"⟩
    | .excepted msg =>
      ⟨false, "", some ("Error running test: " ++ msg), "error"⟩

theorem str_data_append (a b : String) : (a ++ b).data = a.data ++ b.data := rfl

/-- C9: a run whose subprocess call times out is classified as an error whose
message indicates the timeout — never as passed or failed. -/
theorem run_test_timeout_is_error :
    ∀ (t : Nat),
      (run_test true .timedOut t).status = "error" ∧
      (run_test true .timedOut t).passed = false ∧
      strHasSub "timed out" ((run_test true .timedOut t).error.getD "") = true ∧
      (run_test true .timedOut t).status ≠ "passed" ∧
      (run_test true .timedOut t).status ≠ "failed" := by
  intro t
  have hs : (run_test true .timedOut t).status = "error" := rfl
  refine ⟨hs, rfl, ?_, by rw [hs]; decide, by rw [hs]; decide⟩
  show strHasSub "timed out" ("Test timed out after " ++ toString t ++ " seconds") = true
  show hasSub "timed out".data (("Test timed out after " ++ toString t) ++ " seconds").data = true
  rw [str_data_append, str_data_append]
  rw [List.append_assoc]
  exact hasSub_append_right _ (by decide)

/-! ### Value parser and converter planner
(`PythonFormatter._parse_input_line` and friends) -/

def openBraceChar : Char := Char.ofNat 123
def closeBraceChar : Char := Char.ofNat 125

/-- Hand-compiled matcher for `re.search(r'(\w+)\s*=\s*(.+)', s)` at one
start position.  `\w+` is greedy and deterministic here (shrinking it leaves
a word character where `=` is required), and the greedy `\s*` before `(.+)`
backs off just enough that the first captured character is not a newline. -/
def nameEqValueAt (l : List Char) : Option (List Char × List Char) :=
  if (l.takeWhile wordChar).isEmpty then none
  else
    match (l.drop (l.takeWhile wordChar).length).dropWhile pyWS with
    | '=' :: r2 =>
      match r2.drop (r2.takeWhile pyWS).length with
      | c :: rest => some (l.takeWhile wordChar, c :: rest.takeWhile (· ≠ '\n'))
      | [] =>
        -- everything after `=` is whitespace: `\s*` backs off to the last
        -- non-newline whitespace character, which `(.+)` then captures
        match (r2.takeWhile pyWS).reverse.dropWhile (· = '\n') with
        | c :: _ => some (l.takeWhile wordChar, [c])
        | [] => none
    | _ => none

/-- Leftmost search for `(\w+)\s*=\s*(.+)` (tries every start position). -/
def nameEqValueSearch : List Char → Option (List Char × List Char)
  | [] => none
  | c :: rest =>
    match nameEqValueAt (c :: rest) with
    | some r => some r
    | none => nameEqValueSearch rest

/-- `PythonFormatter._parse_input_parameter`. -/
def quote_swap (value1 : List Char) : List Char :=
  if "\"".data.isPrefixOf value1 && "\"".data.reverse.isPrefixOf value1.reverse then
    '\'' :: (replL "'".data "\\'".data (value1.drop 1).dropLast ++ ['\''])
  else value1

def parse_input_parameter (param_str : String) : Option (String × String) :=
  match nameEqValueSearch param_str.data with
  | none => none
  | some (nm, val) =>
    some (⟨stripL nm⟩,
      ⟨quote_swap (replL "null".data "None".data (stripL val))⟩)

/-- Scanner state of `PythonFormatter._parse_input_line`. -/
structure InputScanState where
  params : List (String × String)
  current : List Char
  in_quotes : Bool
  quote_char : Option Char
  depth : Int

/-- One step of the character loop of `_parse_input_line`. -/
def input_scan_step (st : InputScanState) (c : Char) : InputScanState :=
  if (c = '"' || c = '\'') && (!st.in_quotes || some c == st.quote_char) then
    { st with in_quotes := !st.in_quotes,
              quote_char := if !st.in_quotes then some c else none,
              current := st.current ++ [c] }
  else if c = '[' || c = openBraceChar || c = '(' then
    { st with depth := st.depth + 1, current := st.current ++ [c] }
  else if c = ']' || c = closeBraceChar || c = ')' then
    { st with depth := st.depth - 1, current := st.current ++ [c] }
  else if c = ',' && !st.in_quotes && st.depth = 0 then
    { st with
      params :=
        if stripL st.current ≠ [] then
          match parse_input_parameter ⟨stripL st.current⟩ with
          | some param => st.params ++ [param]
          | none => st.params
        else st.params,
      current := [] }
  else
    { st with current := st.current ++ [c] }

/-- `PythonFormatter._parse_input_line`: split the input text at commas that
are outside quotes and at bracket depth zero, parsing each segment. -/
def parse_input_line (input_text : String) : List (String × String) :=
  ((input_text.data ++ [',']).foldl input_scan_step
    ⟨[], [], false, none, 0⟩).params

/-- Depth-matching scan of `_extract_list_value` / `_extract_dict_value`. -/
def extract_bracket_go (openC closeC : Char) :
    List Char → Int → List Char → Option (List Char)
  | [], _, _ => none
  | c :: rest, depth, acc =>
    if c = openC then extract_bracket_go openC closeC rest (depth + 1) (acc ++ [c])
    else if c = closeC then
      if depth - 1 = 0 then some (acc ++ [c])
      else extract_bracket_go openC closeC rest (depth - 1) (acc ++ [c])
    else extract_bracket_go openC closeC rest depth (acc ++ [c])

/-- `PythonFormatter._extract_list_value`. -/
def extract_list_value (text : String) : String :=
  match extract_bracket_go '[' ']' text.data 0 [] with
  | some r => ⟨r⟩
  | none => text

/-- `PythonFormatter._extract_dict_value`. -/
def extract_dict_value (text : String) : String :=
  match extract_bracket_go openBraceChar closeBraceChar text.data 0 [] with
  | some r => ⟨r⟩
  | none => text

/-- `PythonFormatter._parse_output_line`. -/
def parse_output_line (output_text : String) : String :=
  if strStarts "[" (pyStrip output_text) then extract_list_value (pyStrip output_text)
  else if strStarts ⟨[openBraceChar]⟩ (pyStrip output_text) then
    extract_dict_value (pyStrip output_text)
  else if strHasSub "," (pyStrip output_text) then
    pyStrip ⟨(pyStrip output_text).data.takeWhile (· ≠ ',')⟩
  else pyStrip output_text

/-- `PythonFormatter._normalize_value`. -/
def normalize_value (value : String) : String :=
  if pyLower (pyReplace "null" "None" value) = "true" then "True"
  else if pyLower (pyReplace "null" "None" value) = "false" then "False"
  else pyReplace "null" "None" value

/-- `PythonFormatter._find_param_type`. -/
def find_param_type (param_name : String) : List (String × String) → Option String
  | [] => none
  | (n, t) :: rest => if n = param_name then some t else find_param_type param_name rest

/-- `PythonFormatter._needs_conversion`. -/
def needs_conversion (param_type : String) : Option String :=
  if strHasSub "ListNode" param_type then some "list_to_listnode"
  else if strHasSub "TreeNode" param_type then some "list_to_treenode"
  else none

/-- `PythonFormatter._build_call_parameters` (the `if param_type else None`
guard makes an empty declared type behave like a missing one). -/
def build_call_parameters (input_params param_info : List (String × String)) :
    List String :=
  input_params.map fun p =>
    match
      (match find_param_type p.1 param_info with
       | some t => if t ≠ "" then needs_conversion t else none
       | none => none) with
    | some c => c ++ "(" ++ p.2 ++ ")"
    | none => p.2

/-- `PythonFormatter._apply_return_conversion`. -/
def apply_return_conversion (call return_type : String) : String :=
  if strHasSub "ListNode" return_type then "listnode_to_list(" ++ call ++ ")"
  else if strHasSub "TreeNode" return_type then "treenode_to_list(" ++ call ++ ")"
  else call

/-- C5: the input-line parser splits only at top-level, unquoted commas; the
two specified inputs produce exactly the specified pairs, with the
double-quoted string re-emitted single-quoted. -/
theorem parse_input_line_spec_examples :
    parse_input_line "nums = [2,7,11,15], target = 9" =
      [("nums", "[2,7,11,15]"), ("target", "9")] ∧
    parse_input_line "s = \"a,b\", k = 2" =
      [("s", "'a,b'"), ("k", "2")] := by
  constructor <;> rfl

theorem find_param_type_no_keyword {param_info : List (String × String)}
    (h : ∀ p ∈ param_info, strHasSub "ListNode" p.2 = false ∧
      strHasSub "TreeNode" p.2 = false) (n : String) {t : String}
    (hf : find_param_type n param_info = some t) :
    strHasSub "ListNode" t = false ∧ strHasSub "TreeNode" t = false := by
  induction param_info with
  | nil => simp [find_param_type] at hf
  | cons p rest ih =>
    rw [show p = (p.1, p.2) from rfl] at hf
    simp only [find_param_type] at hf
    split at hf
    · cases hf
      exact h p (List.mem_cons_self p rest)
    · exact ih (fun q hq => h q (List.mem_cons_of_mem p hq)) hf

/-- C6: a declared type containing the linked-list keyword selects the
array-to-linked-list converter (and the return side its inverse wrapping the
call); a type with no structural keyword selects no converter and every
argument literal passes through unchanged. -/
theorem converter_planner_keyword_selection :
    (∀ t : String, strHasSub "ListNode" t = true →
      needs_conversion t = some "list_to_listnode") ∧
    (∀ call rt : String, strHasSub "ListNode" rt = true →
      apply_return_conversion call rt = "listnode_to_list(" ++ call ++ ")") ∧
    (∀ t : String, strHasSub "ListNode" t = false →
      strHasSub "TreeNode" t = false → needs_conversion t = none) ∧
    (∀ input_params param_info : List (String × String),
      (∀ p ∈ param_info, strHasSub "ListNode" p.2 = false ∧
        strHasSub "TreeNode" p.2 = false) →
      build_call_parameters input_params param_info = input_params.map Prod.snd) ∧
    (∀ (n v t : String) (rest param_info : List (String × String)),
      find_param_type n param_info = some t → t ≠ "" →
      strHasSub "ListNode" t = true →
      build_call_parameters ((n, v) :: rest) param_info =
        ("list_to_listnode(" ++ v ++ ")") :: build_call_parameters rest param_info) := by
  refine ⟨?_, ?_, ?_, ?_, ?_⟩
  · intro t h
    simp [needs_conversion, h]
  · intro call rt h
    simp [apply_return_conversion, h]
  · intro t h1 h2
    simp [needs_conversion, h1, h2]
  · intro input_params param_info h
    induction input_params with
    | nil => rfl
    | cons p ps ih =>
      simp only [build_call_parameters, List.map_cons] at ih ⊢
      congr 1
      cases hf : find_param_type p.1 param_info with
      | none => simp [hf]
      | some t =>
        have ⟨h1, h2⟩ := find_param_type_no_keyword h p.1 hf
        by_cases ht : t = ""
        · simp [hf, ht]
        · simp [hf, ht, needs_conversion, h1, h2]
  · intro n v t rest param_info hf ht hln
    simp only [build_call_parameters, List.map_cons]
    congr 1
    simp [hf, ht, needs_conversion, hln]

/-- Witness for C6 at concrete inputs: a `ListNode`-typed parameter is
wrapped in `list_to_listnode`, a `ListNode` return type wraps the call in
`listnode_to_list`, and a keyword-free signature passes literals through. -/
theorem converter_planner_keyword_selection_witness :
    needs_conversion "Optional[ListNode]" = some "list_to_listnode" ∧
    apply_return_conversion "solution.mergeTwoLists(list_to_listnode([1,2]))"
      "Optional[ListNode]" =
      "listnode_to_list(solution.mergeTwoLists(list_to_listnode([1,2])))" ∧
    needs_conversion "List[int]" = none ∧
    build_call_parameters [("nums", "[2,7,11,15]"), ("target", "9")]
      [("nums", "List[int]"), ("target", "int")] = ["[2,7,11,15]", "9"] ∧
    build_call_parameters [("l1", "[1,2]")] [("l1", "Optional[ListNode]")] =
      ["list_to_listnode([1,2])"] := by
  refine ⟨?_, ?_, ?_, ?_, ?_⟩
  · exact converter_planner_keyword_selection.1 "Optional[ListNode]" (by decide)
  · exact converter_planner_keyword_selection.2.1
      "solution.mergeTwoLists(list_to_listnode([1,2]))" "Optional[ListNode]" (by decide)
  · exact converter_planner_keyword_selection.2.2.1 "List[int]" (by decide) (by decide)
  · exact converter_planner_keyword_selection.2.2.2.1
      [("nums", "[2,7,11,15]"), ("target", "9")]
      [("nums", "List[int]"), ("target", "int")] (by decide)
  · exact converter_planner_keyword_selection.2.2.2.2 "l1" "[1,2]"
      "Optional[ListNode]" [] [("l1", "Optional[ListNode]")] (by decide)
      (by decide) (by decide)

/-! ### Empty-method guard (`PythonFormatter._ensure_pass_in_methods`) -/

/-- `PythonFormatter._is_empty_method` at a method line `l` followed by
`rest` (the source inspects only `lines[idx]` and `lines[idx + 1]`). -/
def is_empty_method (l : String) : List String → Bool
  | [] => true
  | next :: _ =>
    if strStarts "#" (pyStrip next) then false
    else
      let current_indent := indentOf l
      let next_indent := if pyStrip next ≠ "" then indentOf next else current_indent
      decide (next_indent ≤ current_indent) || decide (pyStrip next = "")

/-- The injected no-op line: `' ' * (indent + 4) + 'pass'`. -/
def pass_line (l : String) : String :=
  ⟨List.replicate (indentOf l + 4) ' ' ++ "pass".data⟩

/-- Line loop of `_ensure_pass_in_methods`: every line is kept; comment lines
skip the check; a line containing `def ` whose strip ends with `:` and whose
method body is empty gets a `pass` appended right after it. -/
def ensure_pass_go : List String → List String
  | [] => []
  | l :: rest =>
    l :: ((if strStarts "#" (pyStrip l) then []
           else if strHasSub "def " l && strEnds ":" (pyStrip l) && is_empty_method l rest
           then [pass_line l] else []) ++ ensure_pass_go rest)

/-- `PythonFormatter._ensure_pass_in_methods`. -/
def ensure_pass_in_methods (code : String) : String :=
  pyUnlines (ensure_pass_go (pyLines code))

/-- Amended-claim predicate, written from the amended claim's words: a no-op
is injected exactly after every non-comment line that contains `def ` and
ends (stripped) with a colon, whose next line is absent, blank, or not more
deeply indented than the definition line — and is not itself a comment line
(a comment as next line suppresses the injection). -/
def amended_pass_point (l : String) (next? : Option String) : Bool :=
  !strStarts "#" (pyStrip l) && strHasSub "def " l && strEnds ":" (pyStrip l) &&
    (match next? with
     | none => true
     | some nx =>
       !strStarts "#" (pyStrip nx) &&
         (decide (pyStrip nx = "") || decide (indentOf nx ≤ indentOf l)))

/-- Declarative insertion according to `amended_pass_point`. -/
def amended_insert_passes : List String → List String
  | [] => []
  | l :: rest =>
    l :: ((if amended_pass_point l rest.head? then [pass_line l] else []) ++
      amended_insert_passes rest)

theorem ensure_pass_go_eq_amended (lines : List String) :
    ensure_pass_go lines = amended_insert_passes lines := by
  induction lines with
  | nil => rfl
  | cons l rest ih =>
    simp only [ensure_pass_go, amended_insert_passes, ih]
    congr 2
    by_cases hc : strStarts "#" (pyStrip l) = true
    · simp [hc, amended_pass_point]
    · simp only [Bool.not_eq_true] at hc
      simp only [hc, if_false, amended_pass_point, Bool.not_false, Bool.true_and]
      cases rest with
      | nil => simp [is_empty_method]
      | cons nx t =>
        simp only [is_empty_method, List.head?]
        by_cases hnx : strStarts "#" (pyStrip nx) = true
        · simp [hnx]
        · simp only [Bool.not_eq_true] at hnx
          simp only [hnx, if_false, Bool.not_false, Bool.true_and]
          by_cases hblank : pyStrip nx = ""
          · simp [hblank]
          · simp [hblank]

/-- C2 (amended): the empty-method guard injects a single `pass`, one indent
level deeper, after exactly those `def` lines whose next line is absent,
blank, or not more deeply indented and not a comment; it is applied to every
callable in the template.  (A next line that is a comment never triggers an
injection — the original claim's comment case fails, see the
counterexample.) -/
theorem ensure_pass_in_methods_amended_characterisation (code : String) :
    ensure_pass_in_methods code = pyUnlines (amended_insert_passes (pyLines code)) := by
  unfold ensure_pass_in_methods
  rw [ensure_pass_go_eq_amended]

/-- Counterexample to C2 as stated: the body of `def f(self):` is followed by
a comment line only, which the claim counts as an empty body requiring an
injected `pass`; the code injects nothing and returns the template
unchanged. -/
theorem ensure_pass_comment_body_no_injection :
    ensure_pass_in_methods "def f(self):\n    # todo" = "def f(self):\n    # todo" ∧
    strCountSub "pass" (ensure_pass_in_methods "def f(self):\n    # todo") = 0 := by
  constructor <;> rfl

/-! ### Structural-helper reconstructor
(`PythonFormatter._uncomment_class_definitions`) -/

/-- A line that starts a commented-out class block: its strip begins with
`# class ` and contains a colon. -/
def class_comment_start (l : String) : Bool :=
  strStarts "# class " (pyStrip l) && strHasSub ":" (pyStrip l)

/-- Line loop of `_uncomment_class_definitions`, carrying the
`in_comment_block` / `comment_block` / `base_indent` state; the unterminated
block is flushed (followed by one blank line) at end of input. -/
def uncomment_go : List String → Bool → List String → Nat → List String
  | [], _, block, _ => if block ≠ [] then block ++ [""] else []
  | l :: rest, in_block, block, base =>
    let stripped := pyStrip l
    if class_comment_start l then
      uncomment_go rest true [pyLStrip ⟨lstripHashL (l.data.drop (indentOf l))⟩] (indentOf l)
    else if in_block && strStarts "#" stripped then
      if base ≤ indentOf l then
        let u : String := ⟨lstripHashL (l.data.drop base)⟩
        if u ≠ "" && !pyIsSpace u then
          uncomment_go rest true
            (block ++ [if strStarts " " u then ⟨u.data.drop 1⟩ else u]) base
        else uncomment_go rest true (block ++ [""]) base
      else uncomment_go rest true (block ++ [pyLStrip (pyLStripHash l)]) base
    else if in_block then
      block ++ [""] ++ [l] ++ uncomment_go rest false [] base
    else
      l :: uncomment_go rest in_block block base

/-- `PythonFormatter._uncomment_class_definitions`. -/
def uncomment_class_definitions (code : String) : String :=
  pyUnlines (uncomment_go (pyLines code) false [] 0)

theorem uncomment_go_no_block {lines : List String}
    (h : ∀ l ∈ lines, class_comment_start l = false) :
    ∀ base, uncomment_go lines false [] base = lines := by
  induction lines with
  | nil => intro base; rfl
  | cons l rest ih =>
    intro base
    have hl : class_comment_start l = false := h l (List.mem_cons_self l rest)
    simp only [uncomment_go, hl, Bool.false_eq_true, if_false, Bool.false_and,
      List.cons.injEq, true_and]
    exact ih (fun l' hl' => h l' (List.mem_cons_of_mem l hl')) base

/-- C7: on a template containing no commented-out class-definition line the
reconstructor returns its input unchanged, and is therefore idempotent on
such input. -/
theorem uncomment_class_definitions_noop {code : String}
    (h : ∀ l ∈ pyLines code, class_comment_start l = false) :
    uncomment_class_definitions code = code ∧
    uncomment_class_definitions (uncomment_class_definitions code) =
      uncomment_class_definitions code := by
  have h1 : uncomment_class_definitions code = code := by
    unfold uncomment_class_definitions
    rw [uncomment_go_no_block h 0]
    exact pyUnlines_pyLines code
  exact ⟨h1, by simp only [h1]⟩

/-- Witness for C7 on a concrete already-uncommented template. -/
theorem uncomment_class_definitions_noop_witness :
    uncomment_class_definitions "class Solution:\n    def f(self):\n        pass" =
      "class Solution:\n    def f(self):\n        pass" :=
  (uncomment_class_definitions_noop (by decide)).1

/-! ### Signature analyzer (`PythonFormatter._parse_method_signature`,
`_extract_parameter_info`)

The source matches one physical line against
`def\s+\w+\s*\(\s*self\s*(?:,\s*([^)]+))?\)`.  The scanner below compiles
that pattern: all the `\s*`/`\w+` repetitions are deterministic (shrinking
them leaves a character the following literal cannot match) except the `\s*`
inside the optional group, whose greedy back-off is computed explicitly so
that `[^)]+` keeps at least one character. -/

/-- The part of the signature pattern after the literal `self`:
`\s*(?:,\s*([^)]+))?\)`.  Returns `some none` for a parameterless match and
`some (some g)` with `g` the captured group. -/
def after_self_part (r5 : List Char) : Option (Option (List Char)) :=
  match r5.dropWhile pyWS with
  | ')' :: _ => some none
  | ',' :: r7 =>
    match r7.dropWhile (· ≠ ')') with
    | ')' :: _ =>
      if (r7.takeWhile (· ≠ ')')).isEmpty then none
      else
        some (some ((r7.takeWhile (· ≠ ')')).drop
          (min ((r7.takeWhile (· ≠ ')')).takeWhile pyWS).length
               ((r7.takeWhile (· ≠ ')')).length - 1))))
    | _ => none
  | _ => none

/-- Match of the whole signature pattern anchored at the head of `l`. -/
def sig_match_at (l : List Char) : Option (Option (List Char)) :=
  match l with
  | 'd' :: 'e' :: 'f' :: r0 =>
    if (r0.takeWhile pyWS).isEmpty then none
    else if ((r0.dropWhile pyWS).takeWhile wordChar).isEmpty then none
    else
      match ((r0.dropWhile pyWS).dropWhile wordChar).dropWhile pyWS with
      | '(' :: r3 =>
        match r3.dropWhile pyWS with
        | 's' :: 'e' :: 'l' :: 'f' :: r5 => after_self_part r5
        | _ => none
      | _ => none
  | _ => none

/-- Leftmost `re.search` for the signature pattern. -/
def sig_search : List Char → Option (Option (List Char))
  | [] => none
  | c :: rest =>
    match sig_match_at (c :: rest) with
    | some r => some r
    | none => sig_search rest

/-- `PythonFormatter._parse_parameter` (its `Optional` annotation is never
`None`: every branch returns a pair, so the caller always appends). -/
def parse_parameter (param_str : String) : String × String :=
  let param_clean := stripL (param_str.data.takeWhile (· ≠ '='))
  if param_clean.contains ':' then
    (⟨stripL (param_clean.takeWhile (· ≠ ':'))⟩,
     ⟨stripL (param_clean.drop ((param_clean.takeWhile (· ≠ ':')).length + 1))⟩)
  else (⟨param_clean⟩, "Any")

/-- State of the bracket-respecting comma split over the captured parameter
text. -/
structure ParamSplitState where
  params : List (String × String)
  current : List Char
  depth : Int

/-- One step of the split loop in `_parse_method_signature`. -/
def param_split_step (st : ParamSplitState) (c : Char) : ParamSplitState :=
  if c = '[' || c = openBraceChar || c = '(' then
    { st with depth := st.depth + 1, current := st.current ++ [c] }
  else if c = ']' || c = closeBraceChar || c = ')' then
    { st with depth := st.depth - 1, current := st.current ++ [c] }
  else if c = ',' && st.depth = 0 then
    { st with
      params :=
        if stripL st.current ≠ [] then
          st.params ++ [parse_parameter ⟨stripL st.current⟩]
        else st.params,
      current := [] }
  else { st with current := st.current ++ [c] }

/-- `PythonFormatter._parse_method_signature`: `[]` both when the pattern
does not match the line and when the captured group is absent. -/
def parse_method_signature (line : String) : List (String × String) :=
  match sig_search line.data with
  | none => []
  | some none => []
  | some (some params_str) =>
    ((params_str ++ [',']).foldl param_split_step ⟨[], [], 0⟩).params

/-- Line scan of `PythonFormatter._extract_parameter_info`: the first line
inside the `Solution` scope containing `def ` and no `__` decides the result
(`_parse_method_signature` never returns `None`, so its value is returned
unconditionally). -/
def extract_parameter_info_go : List String → Bool → List (String × String)
  | [], _ => []
  | l :: rest, in_solution =>
    if strHasSub "class Solution" l then extract_parameter_info_go rest true
    else if in_solution && strStarts "class " (pyStrip l) && !strHasSub "Solution" l then
      extract_parameter_info_go rest false
    else if in_solution && strHasSub "def " l && !strHasSub "__" l then
      parse_method_signature l
    else extract_parameter_info_go rest in_solution

/-- `PythonFormatter._extract_parameter_info`. -/
def extract_parameter_info (code : String) : List (String × String) :=
  extract_parameter_info_go (pyLines code) false

theorem mem_of_mem_dropWhile {p : Char → Bool} {l : List Char} {a : Char}
    (h : a ∈ l.dropWhile p) : a ∈ l := by
  induction l with
  | nil => simp [List.dropWhile] at h
  | cons c cs ih =>
    rw [List.dropWhile] at h
    split at h
    · exact List.mem_cons_of_mem c (ih h)
    · exact h

theorem after_self_part_close {r5 : List Char} {r : Option (List Char)}
    (h : after_self_part r5 = some r) : ')' ∈ r5 := by
  unfold after_self_part at h
  split at h
  · rename_i heq
    exact mem_of_mem_dropWhile (heq ▸ List.mem_cons_self ')' _)
  · rename_i r7 heq
    split at h
    · rename_i heq2
      have : ')' ∈ r7.dropWhile (· ≠ ')') := heq2 ▸ List.mem_cons_self ')' _
      have : ')' ∈ r7 := mem_of_mem_dropWhile this
      exact mem_of_mem_dropWhile (heq ▸ List.mem_cons_of_mem ',' this)
    · exact absurd h (by simp)
  · exact absurd h (by simp)

theorem sig_match_at_close {l : List Char} {r : Option (List Char)}
    (h : sig_match_at l = some r) : ')' ∈ l := by
  unfold sig_match_at at h
  split at h
  · rename_i r0
    split at h
    · exact absurd h (by simp)
    · split at h
      · exact absurd h (by simp)
      · split at h
        · rename_i r3 heq3
          split at h
          · rename_i r5 heq5
            have h5 : ')' ∈ r5 := after_self_part_close h
            have h3 : ')' ∈ r3 :=
              mem_of_mem_dropWhile (heq5 ▸ List.mem_cons_of_mem 's'
                (List.mem_cons_of_mem 'e' (List.mem_cons_of_mem 'l'
                  (List.mem_cons_of_mem 'f' h5))))
            have h0 : ')' ∈ r0 :=
              mem_of_mem_dropWhile (mem_of_mem_dropWhile
                (mem_of_mem_dropWhile (heq3 ▸ List.mem_cons_of_mem '(' h3)))
            exact List.mem_cons_of_mem 'd'
              (List.mem_cons_of_mem 'e' (List.mem_cons_of_mem 'f' h0))
          · exact absurd h (by simp)
        · exact absurd h (by simp)
  · exact absurd h (by simp)

theorem sig_search_no_close {l : List Char} (h : ')' ∉ l) :
    sig_search l = none := by
  induction l with
  | nil => rfl
  | cons c rest ih =>
    rw [sig_search]
    cases hm : sig_match_at (c :: rest) with
    | some r => exact absurd (sig_match_at_close hm) h
    | none => exact ih (fun hmem => h (List.mem_cons_of_mem c hmem))

/-- C4 (amended): the analyzer only ever parses a single physical line; when
the target signature spans several physical lines the `def` line contains no
closing parenthesis, the pattern cannot match it, and the extracted
parameter list is empty — not the single-line result. -/
theorem parse_method_signature_needs_closing_paren (line : String)
    (h : ')' ∉ line.data) : parse_method_signature line = [] := by
  unfold parse_method_signature
  rw [sig_search_no_close h]

/-- Witness for the amended C4 at a concrete multi-line fragment. -/
theorem parse_method_signature_needs_closing_paren_witness :
    parse_method_signature "    def twoSum(self," = [] :=
  parse_method_signature_needs_closing_paren "    def twoSum(self," (by decide)

/-- Counterexample to C4 as stated: the same signature written on one line
yields the two declared parameters, while the version broken across physical
lines yields the empty list. -/
theorem extract_parameter_info_multiline_differs :
    extract_parameter_info
      "class Solution:\n    def twoSum(self, nums: List[int], target: int) -> List[int]:\n        pass" =
      [("nums", "List[int]"), ("target", "int")] ∧
    extract_parameter_info
      "class Solution:\n    def twoSum(self,\n               nums: List[int],\n               target: int) -> List[int]:\n        pass" =
      [] := by
  constructor <;> rfl

/-! ### Method analysis (`_extract_method_name`, `_get_return_type`,
`_count_method_params`) -/

/-- Match of `def\s+(\w+)\s*\(` anchored at the head of `l` (greedy `\w+` is
deterministic: shrinking it leaves a word character where `(` is required). -/
def def_name_at (l : List Char) : Option (List Char) :=
  match l with
  | 'd' :: 'e' :: 'f' :: r0 =>
    if (r0.takeWhile pyWS).isEmpty then none
    else if ((r0.dropWhile pyWS).takeWhile wordChar).isEmpty then none
    else
      match ((r0.dropWhile pyWS).dropWhile wordChar).dropWhile pyWS with
      | '(' :: _ => some ((r0.dropWhile pyWS).takeWhile wordChar)
      | _ => none
  | _ => none

/-- Leftmost `re.search(r'def\s+(\w+)\s*\(', line)`. -/
def def_name_search : List Char → Option (List Char)
  | [] => none
  | c :: rest =>
    match def_name_at (c :: rest) with
    | some r => some r
    | none => def_name_search rest

/-- Leftmost `re.search(r'def\s+(?!__)(\w+)\s*\(', code)`: the negative
lookahead rejects a start position whose captured word begins with `__`
(equivalently: whose next two characters are underscores). -/
def def_name_no_dunder_search : List Char → Option (List Char)
  | [] => none
  | c :: rest =>
    match def_name_at (c :: rest) with
    | some w => if "__".data.isPrefixOf w then def_name_no_dunder_search rest else some w
    | none => def_name_no_dunder_search rest

/-- The mid-loop scope update of `_extract_method_name`: a nonempty,
unindented line containing `class` closes the `Solution` scope (without
`continue`, so the closing line itself is not searched). -/
def solution_scope_update (in_sol : Bool) (l : String) : Bool :=
  if in_sol && !l.data.isEmpty && !pyWS (l.data.headD ' ') && strHasSub "class" l
  then false else in_sol

/-- Line scan of `_extract_method_name`: inside the `Solution` class the
first matched non-dunder method name is returned. -/
def extract_method_name_go : List String → Bool → Option String
  | [], _ => none
  | l :: rest, in_sol =>
    if strHasSub "class Solution" l then extract_method_name_go rest true
    else if solution_scope_update in_sol l then
      match def_name_search l.data with
      | some w =>
        if "__".data.isPrefixOf w then
          extract_method_name_go rest (solution_scope_update in_sol l)
        else some ⟨w⟩
      | none => extract_method_name_go rest (solution_scope_update in_sol l)
    else extract_method_name_go rest (solution_scope_update in_sol l)

/-- `PythonFormatter._extract_method_name` with its fallback chain. -/
def extract_method_name (code : String) : String :=
  match extract_method_name_go (pyLines code) false with
  | some m => m
  | none =>
    match def_name_no_dunder_search code.data with
    | some w => ⟨w⟩
    | none => "solve"

/-- Leftmost `re.search(r'->\s*([^:]+):', code)`: after a `->`, the capture
runs to the first colon (which must exist, with at least one character
before it); on failure the scan resumes after the `->` (no match can start
at the `>` itself).  The `\s*`-consumed prefix is whitespace, so the
caller's `.strip()` of the capture equals the strip of the full
run-to-colon. -/
def arrow_search : List Char → Option (List Char)
  | [] => none
  | '-' :: '>' :: rest =>
    (match rest.dropWhile (· ≠ ':') with
     | ':' :: _ =>
       if (rest.takeWhile (· ≠ ':')).isEmpty then arrow_search rest
       else some (rest.takeWhile (· ≠ ':'))
     | _ => arrow_search rest)
  | _ :: rest => arrow_search rest

/-- `PythonFormatter._get_return_type`. -/
def get_return_type (code : String) : String :=
  match arrow_search code.data with
  | some run => ⟨stripL run⟩
  | none => "Any"

/-- Match of `def\s+\w+\s*\(([^)]+)\)` anchored at the head of `l` (used by
`_count_method_params`). -/
def params_group_at (l : List Char) : Option (List Char) :=
  match l with
  | 'd' :: 'e' :: 'f' :: r0 =>
    if (r0.takeWhile pyWS).isEmpty then none
    else if ((r0.dropWhile pyWS).takeWhile wordChar).isEmpty then none
    else
      match ((r0.dropWhile pyWS).dropWhile wordChar).dropWhile pyWS with
      | '(' :: r3 =>
        match r3.dropWhile (· ≠ ')') with
        | ')' :: _ =>
          if (r3.takeWhile (· ≠ ')')).isEmpty then none
          else some (r3.takeWhile (· ≠ ')'))
        | _ => none
      | _ => none
  | _ => none

def params_group_search : List Char → Option (List Char)
  | [] => none
  | c :: rest =>
    match params_group_at (c :: rest) with
    | some r => some r
    | none => params_group_search rest

/-- State of the raw comma split in `_count_method_params`. -/
structure CountSplitState where
  parts : List (List Char)
  current : List Char
  depth : Int

def count_split_step (st : CountSplitState) (c : Char) : CountSplitState :=
  if c = '[' || c = openBraceChar || c = '(' then
    { st with depth := st.depth + 1, current := st.current ++ [c] }
  else if c = ']' || c = closeBraceChar || c = ')' then
    { st with depth := st.depth - 1, current := st.current ++ [c] }
  else if c = ',' && st.depth = 0 then
    { st with
      parts := if stripL st.current ≠ [] then st.parts ++ [stripL st.current] else st.parts,
      current := [] }
  else { st with current := st.current ++ [c] }

/-- `PythonFormatter._count_method_params`: parameters not containing `self`
as a substring. -/
def count_method_params (code : String) : Nat :=
  match params_group_search code.data with
  | none => 0
  | some g =>
    let st := g.foldl count_split_step ⟨[], [], 0⟩
    let parts := st.parts ++ (if stripL st.current ≠ [] then [stripL st.current] else [])
    (parts.filter (fun p => !hasSub "self".data (stripL p))).length

/-! ### Helper detection and imports (`_detect_helpers_needed`,
`_extract_imports`) -/

structure HelpersNeeded where
  listnode : Bool
  treenode : Bool

/-- `PythonFormatter._detect_helpers_needed`. -/
def detect_helpers_needed (code : String) : HelpersNeeded :=
  ⟨strHasSub "ListNode" code && strHasSub "class ListNode" code,
   strHasSub "TreeNode" code && strHasSub "class TreeNode" code⟩

/-- The `import_types` table of `_extract_imports`, in source order. -/
def import_types : List (String × String) :=
  [("List[", "List"), ("Optional[", "Optional"), ("Dict[", "Dict"),
   ("Dictionary[", "Dict"), ("Set[", "Set"), ("Tuple[", "Tuple"),
   ("Union[", "Union"), ("Deque[", "Deque"), ("deque", "Deque")]

/-- Lexicographic (code-point) order on strings, as Python `sorted` uses. -/
def lexLt : List Char → List Char → Bool
  | [], [] => false
  | [], _ :: _ => true
  | _ :: _, [] => false
  | a :: as, b :: bs => if a = b then lexLt as bs else decide (a < b)

def insertSorted (x : String) : List String → List String
  | [] => [x]
  | y :: ys => if lexLt x.data y.data then x :: y :: ys else y :: insertSorted x ys

def sortStrings : List String → List String
  | [] => []
  | x :: xs => insertSorted x (sortStrings xs)

/-- `PythonFormatter._extract_imports`: the set of matched import names,
alphabetised and joined. -/
def extract_imports (code : String) : String :=
  let names := ((import_types.filter (fun pr => strHasSub pr.1 code)).map Prod.snd).eraseDups
  if names.isEmpty then ""
  else "from typing import " ++ pyJoinSep ", " (sortStrings names)

/-! ### Description formatting (`_html_to_text`, `_format_description`) -/

/-- `re.sub(r'<[^>]+>', repl, s)`: leftmost, non-overlapping; `<>` (no
character between the brackets) is not a tag.  Fuel-structured for kernel
evaluation (`fuel = s.length` always suffices: every step consumes at least
one character). -/
def sub_tags_go (repl : List Char) : Nat → List Char → List Char
  | _, [] => []
  | 0, l => l
  | fuel + 1, '<' :: rest =>
    (match rest.dropWhile (· ≠ '>') with
     | '>' :: r2 =>
       if (rest.takeWhile (· ≠ '>')).isEmpty then '<' :: sub_tags_go repl fuel rest
       else repl ++ sub_tags_go repl fuel r2
     | _ => '<' :: sub_tags_go repl fuel rest)
  | fuel + 1, c :: rest => c :: sub_tags_go repl fuel rest

def pySubTags (repl s : String) : String := ⟨sub_tags_go repl.data s.data.length s.data⟩

/-- `PythonFormatter._html_to_text`: strip tags, then the four-entry entity
table in source order. -/
def html_to_text (html_content : String) : String :=
  pyReplace "&amp;" "&" (pyReplace "&gt;" ">" (pyReplace "&lt;" "<"
    (pyReplace "&nbsp;" " " (pySubTags "" html_content))))

/-- `PythonFormatter._format_description` (its `try` body is total). -/
def format_description (html_content : String) : String :=
  pyUnlines ((pyLines (pyStrip (html_to_text html_content))).map
    (fun l => if l ≠ "" then "# " ++ l else "#"))

/-! ### Example extraction (`_extract_test_examples`, `_parse_example_text`)

`_extract_test_examples` iterates
`re.finditer(r'Example\s+\d+:(.*?)(?=Example\s+\d+:|Constraints:|$)', text,
re.DOTALL | re.IGNORECASE)`; `_parse_example_text` applies three
case-sensitive label patterns to each block. -/

/-- Case-insensitive literal match at the head of `l`, returning the rest. -/
def ci_lit? : List Char → List Char → Option (List Char)
  | [], l => some l
  | _ :: _, [] => none
  | p :: ps, c :: cs => if Char.toLower c = Char.toLower p then ci_lit? ps cs else none

/-- `Example\s+\d+:` (case-insensitive) anchored at the head of `l`. -/
def marker_at (l : List Char) : Option (List Char) :=
  match ci_lit? "example".data l with
  | none => none
  | some r0 =>
    if (r0.takeWhile pyWS).isEmpty then none
    else if ((r0.dropWhile pyWS).takeWhile digitChar).isEmpty then none
    else
      match (r0.dropWhile pyWS).dropWhile digitChar with
      | ':' :: r3 => some r3
      | _ => none

/-- The lookahead `(?=Example\s+\d+:|Constraints:|$)` holds at this suffix
(`$` without `re.MULTILINE` matches at the end of the text and just before a
final newline). -/
def block_end_at (s : List Char) : Bool :=
  (marker_at s).isSome || (ci_lit? "constraints:".data s).isSome ||
    s.isEmpty || s = ['\n']

/-- The lazy `(.*?)` group: the shortest span whose following suffix
satisfies `block_end_at`.  Returns the group and the suffix at which the
lookahead held. -/
def take_block : Nat → List Char → List Char × List Char
  | _, [] => ([], [])
  | 0, s => ([], s)
  | fuel + 1, c :: rest =>
    if block_end_at (c :: rest) then ([], c :: rest)
    else
      match take_block fuel rest with
      | (g, r) => (c :: g, r)

/-- The `finditer` loop: repeatedly search for the marker, take the lazy
block, and resume at the zero-width lookahead position. -/
def finditer_examples : Nat → List Char → List (List Char)
  | _, [] => []
  | 0, _ => []
  | fuel + 1, c :: rest =>
    match marker_at (c :: rest) with
    | some after =>
      match take_block after.length after with
      | (g, r) => g :: finditer_examples fuel r
    | none => finditer_examples fuel rest

/-- Match of `<label>\s*([^\n]+(?:\n(?!<next_lab>)[^\n]+)*)` anchored at the
head: continuation lines after the first captured line. -/
def contin_lines (next_lab : List Char) : Nat → List Char → List Char
  | _, [] => []
  | 0, _ => []
  | fuel + 1, '\n' :: rest =>
    if (stripPre? next_lab rest).isSome then []
    else if (rest.takeWhile (· ≠ '\n')).isEmpty then []
    else
      '\n' :: (rest.takeWhile (· ≠ '\n') ++
        contin_lines next_lab fuel (rest.drop (rest.takeWhile (· ≠ '\n')).length))
  | _ + 1, _ => []

/-- Anchored match of the two-label pattern above.  When everything after
the label is whitespace, the greedy `\s*` backs off to the last non-newline
whitespace character, which `[^\n]+` captures alone (everything following it
is newlines, so no continuation line can match). -/
def label_multiline_at (lab next_lab l : List Char) : Option (List Char) :=
  match stripPre? lab l with
  | none => none
  | some t =>
    match t.drop (t.takeWhile pyWS).length with
    | c :: rest' =>
      some ((c :: rest'.takeWhile (· ≠ '\n')) ++
        contin_lines next_lab t.length
          (rest'.drop (rest'.takeWhile (· ≠ '\n')).length))
    | [] =>
      match (t.takeWhile pyWS).reverse.dropWhile (· = '\n') with
      | c :: _ => some [c]
      | [] => none

/-- Leftmost `re.search` for the two-label pattern. -/
def label_search (lab next_lab : List Char) : List Char → Option (List Char)
  | [] => none
  | c :: rest =>
    match label_multiline_at lab next_lab (c :: rest) with
    | some g => some g
    | none => label_search lab next_lab rest

/-- Anchored match of `Explanation:\s*([^\n]+.*?)$` with `re.DOTALL`: the
group runs from the first captured character to the end of the text (minus a
final newline, before which `$` already matches). -/
def expl_at (l : List Char) : Option (List Char) :=
  match stripPre? "Explanation:".data l with
  | none => none
  | some t =>
    match t.drop (t.takeWhile pyWS).length with
    | c :: rest' =>
      some (if (c :: rest').getLast? = some '\n' then (c :: rest').dropLast
            else c :: rest')
    | [] =>
      if (t.reverse.dropWhile (· = '\n')).isEmpty then none
      else
        some (if (t.drop (t.length - (t.reverse.takeWhile (· = '\n')).length - 1)).getLast?
                  = some '\n'
              then (t.drop (t.length - (t.reverse.takeWhile (· = '\n')).length - 1)).dropLast
              else t.drop (t.length - (t.reverse.takeWhile (· = '\n')).length - 1))

def expl_search : List Char → Option (List Char)
  | [] => none
  | c :: rest =>
    match expl_at (c :: rest) with
    | some g => some g
    | none => expl_search rest

/-- `PythonFormatter._parse_example_text`. -/
def parse_example_text (example_text : String) :
    Option (String × String × String) :=
  let input_text : String :=
    match label_search "Input:".data "Output:".data example_text.data with
    | some g => pyStrip ⟨g⟩
    | none => ""
  let output_text : String :=
    match label_search "Output:".data "Explanation:".data example_text.data with
    | some g => pyStrip ⟨g⟩
    | none => ""
  let explanation : String :=
    match expl_search example_text.data with
    | some g => pyStrip ⟨g⟩
    | none => ""
  if input_text ≠ "" then some (input_text, output_text, explanation) else none

/-- Models `html.unescape` restricted to five common named entities, `&amp;`
handled last as in a single decoding pass.  (Every input this development
evaluates it on is `&`-free, where the model is exact.) -/
def unescape (s : String) : String :=
  pyReplace "&amp;" "&" (pyReplace "&quot;" "\"" (pyReplace "&nbsp;" " "
    (pyReplace "&gt;" ">" (pyReplace "&lt;" "<" s))))

/-- `PythonFormatter._extract_test_examples` (its `try` body is total; tags
are replaced by newlines to preserve block boundaries). -/
def extract_test_examples (description : String) :
    List (String × String × String) :=
  let text := pySubTags "\n" (unescape description)
  (finditer_examples text.data.length text.data).filterMap
    (fun g => parse_example_text (pyStrip ⟨g⟩))

/-! ### Code generation (`_build_test_assertion`, `_build_test_code`,
`_format_basic_test_cases`, `_format_test_cases`, `_get_python_code`,
`_build_file_content`, `format`) -/

/-- `PythonFormatter.LISTNODE_HELPERS` (verbatim). -/
def LISTNODE_HELPERS : String :=
  "\n    def list_to_listnode(arr):\n        \"\"\"Convert array to ListNode.\"\"\"\n        if not arr:\n            return None\n        head = ListNode(arr[0])\n        current = head\n        for val in arr[1:]:\n            current.next = ListNode(val)\n            current = current.next\n        return head\n    \n    def listnode_to_list(node):\n        \"\"\"Convert ListNode to array.\"\"\"\n        result = []\n        while node:\n            result.append(node.val)\n            node = node.next\n        return result\n"

/-- `PythonFormatter.TREENODE_HELPERS` (verbatim). -/
def TREENODE_HELPERS : String :=
  "\n    def list_to_treenode(arr):\n        \"\"\"Convert array to TreeNode (level-order).\"\"\"\n        if not arr or arr[0] is None:\n            return None\n        \n        root = TreeNode(arr[0])\n        queue = [root]\n        i = 1\n        \n        while queue and i < len(arr):\n            node = queue.pop(0)\n            \n            if i < len(arr) and arr[i] is not None:\n                node.left = TreeNode(arr[i])\n                queue.append(node.left)\n            i += 1\n            \n            if i < len(arr) and arr[i] is not None:\n                node.right = TreeNode(arr[i])\n                queue.append(node.right)\n            i += 1\n        \n        return root\n    \n    def treenode_to_list(root):\n        \"\"\"Convert TreeNode to array (level-order).\"\"\"\n        if not root:\n            return []\n        \n        result = []\n        queue = [root]\n        \n        while queue:\n            node = queue.pop(0)\n            if node:\n                result.append(node.val)\n                queue.append(node.left)\n                queue.append(node.right)\n            else:\n                result.append(None)\n        \n        # Remove trailing None values\n        while result and result[-1] is None:\n            result.pop()\n        \n        return result\n"

/-- `PythonFormatter._build_test_assertion` (its `try` body is total; `None`
exactly when the input text yields no parameters). -/
def build_test_assertion (input_text output_text method_name : String)
    (param_info : List (String × String)) (return_type : String) :
    Option String :=
  if (parse_input_line input_text).isEmpty then none
  else
    some ("    assert " ++ normalize_value (parse_output_line output_text) ++
      " == " ++
      apply_return_conversion
        ("solution." ++ method_name ++ "(" ++
          pyJoinSep ", " (build_call_parameters (parse_input_line input_text) param_info) ++ ")")
        return_type)

/-- `PythonFormatter._build_test_code`. -/
def build_test_code (examples : List (String × String × String))
    (method_name : String) (helpers_needed : HelpersNeeded)
    (param_info : List (String × String)) (return_type : String) : String :=
  pyUnlines
    (((if helpers_needed.listnode then pyLines LISTNODE_HELPERS else []) ++
      (if helpers_needed.treenode then pyLines TREENODE_HELPERS else []) ++
      [""]) ++
     examples.flatMap (fun e =>
       match build_test_assertion e.1 e.2.1 method_name param_info return_type with
       | some a => [a, ""]
       | none => []))

/-- Chunking loop of `_format_basic_test_cases` (`n ≥ 1` whenever called, so
`fuel = lines.length` suffices). -/
def chunk_go (n : Nat) : Nat → List String → List (List String)
  | _, [] => []
  | 0, _ => []
  | fuel + 1, l => l.take n :: chunk_go n fuel (l.drop n)

/-- Per-chunk lines of `_format_basic_test_cases` (`test_num` counts from
1; the emitted `print` uses literal braces around `resultN`). -/
def basic_chunk_lines (method_name : String) : Nat → List (List String) → List String
  | _, [] => []
  | tn, inputs :: rest =>
    (match inputs with
     | [single] =>
       ["result" ++ toString tn ++ " = solution." ++ method_name ++ "(" ++ single ++ ")"]
     | _ =>
       ["result" ++ toString tn ++ " = solution." ++ method_name ++ "(" ++
         pyJoinSep ", " inputs ++ ")"]) ++
    ["print(f\"Test " ++ toString tn ++ ": \x7bresult" ++ toString tn ++ "\x7d\")", ""] ++
    basic_chunk_lines method_name (tn + 1) rest

/-- `PythonFormatter._format_basic_test_cases`. -/
def format_basic_test_cases (test_cases : String) (code : String) : String :=
  if test_cases = "" then "    # Add your test cases here\n    pass"
  else
    pyUnlines
      (["    # NOTE: Expected outputs not available - add assertions manually", ""] ++
       (if count_method_params code > 0 &&
           (pyLines (pyStrip test_cases)).length % count_method_params code = 0
        then
          basic_chunk_lines (extract_method_name code) 1
            (chunk_go (count_method_params code)
              (pyLines (pyStrip test_cases)).length (pyLines (pyStrip test_cases)))
        else []))

/-- `PythonFormatter._format_test_cases` (its `try` body is total). -/
def format_test_cases (problem : Problem) (code : String) : String :=
  if (extract_test_examples problem.description).isEmpty then
    format_basic_test_cases problem.test_cases code
  else
    build_test_code (extract_test_examples problem.description)
      (extract_method_name code) (detect_helpers_needed code)
      (extract_parameter_info code) (get_return_type code)

/-- `PythonFormatter._get_python_code`: a missing or empty `Python3` snippet
degrades to a placeholder; otherwise uncomment classes, extract imports,
ensure `pass` in empty methods, and prepend the import line when nonempty. -/
def get_python_code (problem : Problem) : String :=
  match get_snippet problem "Python3" with
  | none => "# No Python template available"
  | some code =>
    if code = "" then "# No Python template available"
    else
      let code1 := uncomment_class_definitions code
      let imports := extract_imports code1
      let code2 := ensure_pass_in_methods code1
      if imports ≠ "" then imports ++ "\n\n" ++ code2 else code2

/-- The `# ===…===` divider of `_build_file_content`: `# ` followed by 76
equals signs. -/
def ruler : String :=
  ⟨'#' :: ' ' :: List.replicate 76 '='⟩

/-- `PythonFormatter._build_file_content` (the f-string skeleton verbatim,
with the four interpolations). -/
def build_file_content (problem : Problem)
    (description code_template test_cases : String) : String :=
  "\"\"\"\nLeetCode Problem #" ++ toString problem.id ++ ": " ++ problem.title ++
  "\nDifficulty: " ++ problem.difficulty ++ "\n\"\"\"\n\n" ++
  ruler ++ "\n# PROBLEM DESCRIPTION\n" ++ ruler ++ "\n" ++
  description ++ "\n\n" ++
  ruler ++ "\n# SOLUTION\n" ++ ruler ++ "\n\n" ++
  code_template ++ "\n\n\n" ++
  ruler ++ "\n# TESTS\n" ++ ruler ++
  "\n\ndef run_tests():\n    \"\"\"Run test cases for the problem.\"\"\"\n    solution = Solution()\n" ++
  test_cases ++ "\n\n\nif __name__ == \"__main__\":\n    run_tests()\n"

/-- `PythonFormatter.format`: the whole pipeline (every stage is total, so
the `try/except/raise` wrapper never fires). -/
def format (problem : Problem) : String :=
  let code_template := get_python_code problem
  build_file_content problem (format_description problem.description)
    code_template (format_test_cases problem code_template)

/-! ### Newline-freedom lemmas

The generated assertions are single lines: every character of an assertion
comes from the example's input/output text, the method name, or a
newline-free literal.  These lemmas track that through each transformation,
so that splitting the joined test code recovers exactly the emitted lines. -/

theorem mem_of_mem_takeWhile {p : Char → Bool} {l : List Char} {a : Char}
    (h : a ∈ l.takeWhile p) : a ∈ l := by
  induction l with
  | nil => simp [List.takeWhile] at h
  | cons c cs ih =>
    rw [List.takeWhile_cons] at h
    split at h
    · rcases List.mem_cons.mp h with h | h
      · exact h ▸ List.mem_cons_self c cs
      · exact List.mem_cons_of_mem c (ih h)
    · simp at h

theorem mem_of_mem_drop {n : Nat} {l : List Char} {a : Char}
    (h : a ∈ l.drop n) : a ∈ l :=
  List.drop_subset n l h

theorem mem_of_mem_dropLast {l : List Char} {a : Char}
    (h : a ∈ l.dropLast) : a ∈ l := by
  induction l with
  | nil => simp at h
  | cons c cs ih =>
    cases cs with
    | nil => simp [List.dropLast] at h
    | cons d ds =>
      rw [List.dropLast_cons₂] at h
      rcases List.mem_cons.mp h with h | h
      · exact h ▸ List.mem_cons_self c (d :: ds)
      · exact List.mem_cons_of_mem c (ih h)

theorem mem_of_mem_stripL {l : List Char} {a : Char} (h : a ∈ stripL l) : a ∈ l := by
  unfold stripL at h
  rw [List.mem_reverse] at h
  have h2 := mem_of_mem_dropWhile h
  rw [List.mem_reverse] at h2
  exact mem_of_mem_dropWhile h2

theorem stripPre?_mem {pat l r : List Char} (h : stripPre? pat l = some r) :
    ∀ a ∈ r, a ∈ l := by
  induction pat generalizing l with
  | nil =>
    simp only [stripPre?, Option.some.injEq] at h
    exact fun a ha => h ▸ ha
  | cons p ps ih =>
    cases l with
    | nil => simp [stripPre?] at h
    | cons c cs =>
      simp only [stripPre?] at h
      split at h
      · exact fun a ha => List.mem_cons_of_mem c (ih h a ha)
      · simp at h

theorem replGo_not_mem {pat rep : List Char} {x : Char} (hrep : x ∉ rep) :
    ∀ (fuel : Nat) (l : List Char), x ∉ l → x ∉ replGo pat rep fuel l := by
  intro fuel
  induction fuel with
  | zero =>
    intro l hl
    cases l with
    | nil => simp [replGo]
    | cons c cs => simpa [replGo] using hl
  | succ f ih =>
    intro l hl
    cases l with
    | nil => simp [replGo]
    | cons c cs =>
      rw [replGo]
      cases hsp : stripPre? pat (c :: cs) with
      | some rem =>
        show x ∉ if pat.isEmpty = true then c :: replGo pat rep f cs
          else rep ++ replGo pat rep f rem
        by_cases hpe : pat.isEmpty
        · rw [if_pos hpe]
          intro hmem
          rcases List.mem_cons.mp hmem with h | h
          · exact hl (h ▸ List.mem_cons_self c cs)
          · exact ih cs (fun hc => hl (List.mem_cons_of_mem c hc)) h
        · rw [if_neg hpe]
          intro hmem
          rcases List.mem_append.mp hmem with h | h
          · exact hrep h
          · exact ih rem (fun hc => hl (stripPre?_mem hsp x hc)) h
      | none =>
        show x ∉ c :: replGo pat rep f cs
        intro hmem
        rcases List.mem_cons.mp hmem with h | h
        · exact hl (h ▸ List.mem_cons_self c cs)
        · exact ih cs (fun hc => hl (List.mem_cons_of_mem c hc)) h

theorem replL_not_mem {pat rep l : List Char} {x : Char} (hrep : x ∉ rep)
    (hl : x ∉ l) : x ∉ replL pat rep l :=
  replGo_not_mem hrep l.length l hl

theorem extract_bracket_go_mem {o cl : Char} :
    ∀ (l : List Char) (d : Int) (acc r : List Char),
      extract_bracket_go o cl l d acc = some r → ∀ x ∈ r, x ∈ l ∨ x ∈ acc := by
  intro l
  induction l with
  | nil =>
    intro d acc r h
    simp [extract_bracket_go] at h
  | cons ch rest ih =>
    intro d acc r h x hx
    rw [extract_bracket_go] at h
    have step : ∀ (d' : Int), extract_bracket_go o cl rest d' (acc ++ [ch]) = some r →
        x ∈ ch :: rest ∨ x ∈ acc := by
      intro d' h'
      rcases ih d' (acc ++ [ch]) r h' x hx with h'' | h''
      · exact Or.inl (List.mem_cons_of_mem ch h'')
      · rcases List.mem_append.mp h'' with h3 | h3
        · exact Or.inr h3
        · simp at h3
          exact Or.inl (h3 ▸ List.mem_cons_self ch rest)
    split at h
    · exact step _ h
    · split at h
      · split at h
        · cases h
          rcases List.mem_append.mp hx with h3 | h3
          · exact Or.inr h3
          · simp at h3
            exact Or.inl (h3 ▸ List.mem_cons_self ch rest)
        · exact step _ h
      · exact step _ h

theorem extract_list_value_noNL {t : String} (h : '\n' ∉ t.data) :
    '\n' ∉ (extract_list_value t).data := by
  unfold extract_list_value
  cases hg : extract_bracket_go '[' ']' t.data 0 [] with
  | none => exact h
  | some r =>
    intro hmem
    rcases extract_bracket_go_mem t.data 0 [] r hg '\n' hmem with h' | h'
    · exact h h'
    · simp at h'

theorem extract_dict_value_noNL {t : String} (h : '\n' ∉ t.data) :
    '\n' ∉ (extract_dict_value t).data := by
  unfold extract_dict_value
  cases hg : extract_bracket_go openBraceChar closeBraceChar t.data 0 [] with
  | none => exact h
  | some r =>
    intro hmem
    rcases extract_bracket_go_mem t.data 0 [] r hg '\n' hmem with h' | h'
    · exact h h'
    · simp at h'

theorem pyStrip_noNL {s : String} (h : '\n' ∉ s.data) : '\n' ∉ (pyStrip s).data :=
  fun hm => h (mem_of_mem_stripL hm)

theorem parse_output_line_noNL {ot : String} (h : '\n' ∉ ot.data) :
    '\n' ∉ (parse_output_line ot).data := by
  unfold parse_output_line
  have hs : '\n' ∉ (pyStrip ot).data := pyStrip_noNL h
  split
  · exact extract_list_value_noNL hs
  · split
    · exact extract_dict_value_noNL hs
    · split
      · exact fun hm => hs (mem_of_mem_takeWhile (mem_of_mem_stripL hm))
      · exact hs

theorem normalize_value_noNL {v : String} (h : '\n' ∉ v.data) :
    '\n' ∉ (normalize_value v).data := by
  unfold normalize_value
  have h1 : '\n' ∉ (pyReplace "null" "None" v).data :=
    replL_not_mem (by decide) h
  split
  · decide
  · split
    · decide
    · exact h1

theorem str_noNL_append {a b : String} (ha : '\n' ∉ a.data) (hb : '\n' ∉ b.data) :
    '\n' ∉ (a ++ b).data := by
  rw [str_data_append]
  intro hm
  rcases List.mem_append.mp hm with h | h
  · exact ha h
  · exact hb h

theorem nameEqValueAt_mem {l nm val : List Char}
    (h : nameEqValueAt l = some (nm, val)) : ∀ x ∈ val, x ∈ l := by
  unfold nameEqValueAt at h
  split at h
  · cases h
  · split at h
    · rename_i r2 heq2
      have hr2 : ∀ x ∈ r2, x ∈ l := by
        intro x hx
        have hx' : x ∈ '=' :: r2 := List.mem_cons_of_mem '=' hx
        rw [← heq2] at hx'
        exact mem_of_mem_drop (mem_of_mem_dropWhile hx')
      split at h
      · rename_i c rest heqd
        cases h
        intro x hx
        have hx' : x ∈ c :: rest := by
          rcases List.mem_cons.mp hx with h' | h'
          · exact h' ▸ List.mem_cons_self c rest
          · exact List.mem_cons_of_mem c (mem_of_mem_takeWhile h')
        rw [← heqd] at hx'
        exact hr2 x (mem_of_mem_drop hx')
      · split at h
        · rename_i heqw
          cases h
          intro x hx
          rcases List.mem_cons.mp hx with h' | h'
          · have h1 : x ∈ (r2.takeWhile pyWS).reverse.dropWhile (· = '\n') := by
              rw [heqw, h']
              exact List.mem_cons_self _ _
            have h2 := mem_of_mem_dropWhile h1
            rw [List.mem_reverse] at h2
            exact hr2 x (mem_of_mem_takeWhile h2)
          · simp at h'
        · cases h
    · cases h

theorem nameEqValueSearch_mem {l nm val : List Char}
    (h : nameEqValueSearch l = some (nm, val)) : ∀ x ∈ val, x ∈ l := by
  induction l with
  | nil => simp [nameEqValueSearch] at h
  | cons c rest ih =>
    rw [nameEqValueSearch] at h
    cases hm : nameEqValueAt (c :: rest) with
    | some r =>
      rw [hm] at h
      cases h
      exact nameEqValueAt_mem hm
    | none =>
      rw [hm] at h
      exact fun x hx => List.mem_cons_of_mem c (ih h x hx)

theorem quote_swap_noNL {v : List Char} (h : '\n' ∉ v) : '\n' ∉ quote_swap v := by
  unfold quote_swap
  split
  · intro hm
    rcases List.mem_cons.mp hm with h' | h'
    · exact absurd h'.symm (by decide)
    · rcases List.mem_append.mp h' with h'' | h''
      · exact replL_not_mem (by decide)
          (fun hm2 => h (mem_of_mem_drop (mem_of_mem_dropLast hm2))) h''
      · simp at h''
  · exact h

theorem parse_input_parameter_noNL {ps : String} (h : '\n' ∉ ps.data)
    {nm v : String} (hp : parse_input_parameter ps = some (nm, v)) :
    '\n' ∉ v.data := by
  unfold parse_input_parameter at hp
  cases hs : nameEqValueSearch ps.data with
  | none => rw [hs] at hp; cases hp
  | some r =>
    rw [hs] at hp
    obtain ⟨nm0, val0⟩ := r
    simp only [Option.some.injEq, Prod.mk.injEq] at hp
    obtain ⟨-, hv⟩ := hp
    have hval0 : '\n' ∉ val0 := fun hm => h (nameEqValueSearch_mem hs '\n' hm)
    have h0 : '\n' ∉ stripL val0 := fun hm => hval0 (mem_of_mem_stripL hm)
    have h1 : '\n' ∉ replL "null".data "None".data (stripL val0) :=
      replL_not_mem (by decide) h0
    subst hv
    exact quote_swap_noNL h1

theorem input_scan_step_inv {st : InputScanState} {c : Char} (hc : c ≠ '\n')
    (hp : ∀ pr ∈ st.params, '\n' ∉ (pr.2 : String).data)
    (hcur : '\n' ∉ st.current) :
    (∀ pr ∈ (input_scan_step st c).params, '\n' ∉ (pr.2 : String).data) ∧
      '\n' ∉ (input_scan_step st c).current := by
  have hext : '\n' ∉ st.current ++ [c] := by
    intro hm
    rcases List.mem_append.mp hm with h | h
    · exact hcur h
    · simp at h; exact hc h.symm
  unfold input_scan_step
  split
  · exact ⟨hp, hext⟩
  · split
    · exact ⟨hp, hext⟩
    · split
      · exact ⟨hp, hext⟩
      · split
        · refine ⟨?_, by simp⟩
          show ∀ pr ∈ (if stripL st.current ≠ [] then
              match parse_input_parameter ⟨stripL st.current⟩ with
              | some param => st.params ++ [param]
              | none => st.params
            else st.params), '\n' ∉ (pr.2 : String).data
          split
          · cases hpp : parse_input_parameter ⟨stripL st.current⟩ with
            | some param =>
              show ∀ pr ∈ st.params ++ [param], '\n' ∉ (pr.2 : String).data
              intro pr hpr
              rcases List.mem_append.mp hpr with h | h
              · exact hp pr h
              · simp only [List.mem_singleton] at h
                subst h
                exact parse_input_parameter_noNL
                  (fun hm => hcur (mem_of_mem_stripL hm)) hpp
            | none => exact hp
          · exact hp
        · exact ⟨hp, hext⟩

theorem input_scan_foldl_inv :
    ∀ (cs : List Char) (st : InputScanState), (∀ c ∈ cs, c ≠ '\n') →
      (∀ pr ∈ st.params, '\n' ∉ (pr.2 : String).data) → '\n' ∉ st.current →
      ∀ pr ∈ (cs.foldl input_scan_step st).params, '\n' ∉ (pr.2 : String).data := by
  intro cs
  induction cs with
  | nil => intro st _ hp _; exact hp
  | cons c rest ih =>
    intro st hcs hp hcur
    have hstep := input_scan_step_inv (hcs c (List.mem_cons_self c rest)) hp hcur
    exact ih (input_scan_step st c)
      (fun c' hc' => hcs c' (List.mem_cons_of_mem c hc')) hstep.1 hstep.2

theorem parse_input_line_values_noNL {s : String} (h : '\n' ∉ s.data) :
    ∀ pr ∈ parse_input_line s, '\n' ∉ (pr.2 : String).data := by
  unfold parse_input_line
  refine input_scan_foldl_inv (s.data ++ [',']) ⟨[], [], false, none, 0⟩ ?_ (by simp) (by simp)
  intro c hc
  rcases List.mem_append.mp hc with h' | h'
  · exact fun he => h (he ▸ h')
  · simp at h'
    subst h'
    decide

theorem needs_conversion_cases {t c : String} (h : needs_conversion t = some c) :
    c = "list_to_listnode" ∨ c = "list_to_treenode" := by
  unfold needs_conversion at h
  split at h
  · cases h; exact Or.inl rfl
  · split at h
    · cases h; exact Or.inr rfl
    · cases h

theorem build_call_parameters_noNL {input_params param_info : List (String × String)}
    (h : ∀ pr ∈ input_params, '\n' ∉ (pr.2 : String).data) :
    ∀ s ∈ build_call_parameters input_params param_info, '\n' ∉ s.data := by
  intro s hs
  unfold build_call_parameters at hs
  rcases List.mem_map.mp hs with ⟨pr, hpr, rfl⟩
  have hv := h pr hpr
  cases hft : find_param_type pr.1 param_info with
  | none => exact hv
  | some t =>
    show '\n' ∉ (match (if t ≠ "" then needs_conversion t else none) with
      | some c => c ++ "(" ++ pr.2 ++ ")"
      | none => pr.2).data
    by_cases ht : t ≠ ""
    · rw [if_pos ht]
      cases hnc : needs_conversion t with
      | none => exact hv
      | some conv =>
        have hc : '\n' ∉ conv.data := by
          rcases needs_conversion_cases hnc with rfl | rfl <;> decide
        exact str_noNL_append (str_noNL_append (str_noNL_append hc (by decide)) hv)
          (by decide)
    · rw [if_neg ht]
      exact hv

theorem pyJoinSep_noNL {sep : String} (hsep : '\n' ∉ sep.data) :
    ∀ (parts : List String), (∀ s ∈ parts, '\n' ∉ s.data) →
      '\n' ∉ (pyJoinSep sep parts).data := by
  intro parts
  induction parts with
  | nil => intro _; simp [pyJoinSep]
  | cons a rest ih =>
    intro h
    cases rest with
    | nil => exact h a (List.mem_cons_self a [])
    | cons b t =>
      show '\n' ∉ (a ++ sep ++ pyJoinSep sep (b :: t)).data
      exact str_noNL_append
        (str_noNL_append (h a (List.mem_cons_self a (b :: t))) hsep)
        (ih (fun s hs => h s (List.mem_cons_of_mem a hs)))

theorem apply_return_conversion_noNL {call rt : String} (h : '\n' ∉ call.data) :
    '\n' ∉ (apply_return_conversion call rt).data := by
  unfold apply_return_conversion
  split
  · exact str_noNL_append (str_noNL_append (by decide) h) (by decide)
  · split
    · exact str_noNL_append (str_noNL_append (by decide) h) (by decide)
    · exact h

theorem isPrefixOf_append_self (p u : List Char) : p.isPrefixOf (p ++ u) = true :=
  isPrefixOf_append (isPrefixOf_refl p)

/-- Every emitted assertion starts with `    assert ` and, when the example
texts and method name are newline-free, is a single line. -/
theorem build_test_assertion_shape {it ot m : String}
    {pi : List (String × String)} {rt : String} {a : String}
    (h : build_test_assertion it ot m pi rt = some a) :
    strStarts "    assert " a = true ∧
      ('\n' ∉ m.data → '\n' ∉ it.data → '\n' ∉ ot.data → '\n' ∉ a.data) := by
  unfold build_test_assertion at h
  split at h
  · cases h
  · simp only [Option.some.injEq] at h
    subst h
    constructor
    · show ("    assert ".data).isPrefixOf _ = true
      simp only [str_data_append, List.append_assoc]
      exact isPrefixOf_append_self _ _
    · intro hm hit hot
      refine str_noNL_append (str_noNL_append (str_noNL_append (by decide) ?_) (by decide)) ?_
      · exact normalize_value_noNL (parse_output_line_noNL hot)
      · refine apply_return_conversion_noNL ?_
        refine str_noNL_append (str_noNL_append (str_noNL_append (str_noNL_append (by decide) hm) (by decide)) ?_) (by decide)
        exact pyJoinSep_noNL (by decide) _
          (build_call_parameters_noNL (parse_input_line_values_noNL hit))

/-! ### C1: assertions emitted by the test-code builder -/

theorem pyLines_noNL (s : String) : ∀ l ∈ pyLines s, '\n' ∉ l.data := by
  intro l hl
  unfold pyLines at hl
  rcases List.mem_map.mp hl with ⟨part, hpart, rfl⟩
  exact not_mem_of_mem_splitCh hpart

theorem pyLines_pyUnlines {ls : List String} (hne : ls ≠ [])
    (h : ∀ l ∈ ls, '\n' ∉ l.data) : pyLines (pyUnlines ls) = ls := by
  have hmem : ∀ l' ∈ ls.map String.data, '\n' ∉ l' := by
    intro l' hl'
    rcases List.mem_map.mp hl' with ⟨s0, hs0, rfl⟩
    exact h s0 hs0
  have hne' : ls.map String.data ≠ [] := by simpa using hne
  show (splitCh '\n' (joinCh '\n' (ls.map String.data))).map String.mk = ls
  rw [splitCh_joinCh hne' hmem, List.map_map]
  have hcomp : (String.mk ∘ String.data) = id := funext fun _ => rfl
  rw [hcomp, List.map_id]

theorem filter_flatMap_pairs {α : Type} (P : String → Bool) (f : α → Option String)
    (l : List α) (h : ∀ a ∈ l, ∀ s, f a = some s → P s = true)
    (h0 : P "" = false) :
    (l.flatMap (fun a => match f a with | some s => [s, ""] | none => [])).filter P
      = l.filterMap f := by
  induction l with
  | nil => rfl
  | cons a rest ih =>
    have ih' := ih (fun a' ha' => h a' (List.mem_cons_of_mem a ha'))
    cases hfa : f a with
    | some s =>
      have hPs : P s = true := h a (List.mem_cons_self a rest) s hfa
      simp [List.flatMap_cons, List.filter_append, List.filterMap_cons, hfa, hPs, h0, ih']
    | none =>
      simp [List.flatMap_cons, List.filter_append, List.filterMap_cons, hfa, ih']

theorem filterMap_length_all_isSome {α β : Type} {f : α → Option β} :
    ∀ {l : List α}, (∀ a ∈ l, (f a).isSome = true) →
      (l.filterMap f).length = l.length := by
  intro l
  induction l with
  | nil => intro _; rfl
  | cons a rest ih =>
    intro h
    cases hfa : f a with
    | none => exact absurd (hfa ▸ h a (List.mem_cons_self a rest)) (by simp)
    | some b =>
      rw [List.filterMap_cons, hfa]
      simp only [List.length_cons]
      rw [ih (fun x hx => h x (List.mem_cons_of_mem a hx))]

/-- C1 (amended): the test-collection code contains one equality assertion
per extracted example whose input text parses into at least one
`(name, value)` pair, in extraction order; an example whose input yields no
pairs contributes no assertion.  When every example's input parses, the
assertion count equals the example count.  (The newline hypotheses state
that the example texts and method name are single-line, which makes each
emitted assertion one physical line.) -/
theorem build_test_code_assertions
    (examples : List (String × String × String)) (method_name : String)
    (helpers : HelpersNeeded) (param_info : List (String × String))
    (return_type : String) (hm : '\n' ∉ method_name.data)
    (hnl : ∀ e ∈ examples, '\n' ∉ (e.1 : String).data ∧ '\n' ∉ (e.2.1 : String).data) :
    (pyLines (build_test_code examples method_name helpers param_info return_type)).filter
        (fun l => strStarts "    assert " l)
      = examples.filterMap
          (fun e => build_test_assertion e.1 e.2.1 method_name param_info return_type) ∧
    ((∀ e ∈ examples,
        (build_test_assertion e.1 e.2.1 method_name param_info return_type).isSome = true) →
      ((pyLines (build_test_code examples method_name helpers param_info return_type)).filter
          (fun l => strStarts "    assert " l)).length = examples.length) := by
  have hA1 : ∀ l ∈ (if helpers.listnode then pyLines LISTNODE_HELPERS else []),
      '\n' ∉ l.data := by
    cases helpers.listnode <;> simp
    exact fun l hl => pyLines_noNL LISTNODE_HELPERS l hl
  have hA2 : ∀ l ∈ (if helpers.treenode then pyLines TREENODE_HELPERS else []),
      '\n' ∉ l.data := by
    cases helpers.treenode <;> simp
    exact fun l hl => pyLines_noNL TREENODE_HELPERS l hl
  have hB : ∀ l ∈ examples.flatMap (fun e =>
      match build_test_assertion e.1 e.2.1 method_name param_info return_type with
      | some a => [a, ""]
      | none => []), '\n' ∉ l.data := by
    intro l hl
    rcases List.mem_flatMap.mp hl with ⟨e, he, hle⟩
    cases hfe : build_test_assertion e.1 e.2.1 method_name param_info return_type with
    | none => rw [hfe] at hle; simp at hle
    | some a =>
      rw [hfe] at hle
      rcases List.mem_cons.mp hle with h' | h'
      · subst h'
        exact (build_test_assertion_shape hfe).2 hm (hnl e he).1 (hnl e he).2
      · simp only [List.mem_singleton] at h'
        subst h'
        simp
  have hLS : ∀ l ∈ ((if helpers.listnode then pyLines LISTNODE_HELPERS else []) ++
        (if helpers.treenode then pyLines TREENODE_HELPERS else []) ++ [""]) ++
      examples.flatMap (fun e =>
        match build_test_assertion e.1 e.2.1 method_name param_info return_type with
        | some a => [a, ""]
        | none => []), '\n' ∉ l.data := by
    intro l hl
    rcases List.mem_append.mp hl with h' | h'
    · rcases List.mem_append.mp h' with h'' | h''
      · rcases List.mem_append.mp h'' with h3 | h3
        · exact hA1 l h3
        · exact hA2 l h3
      · simp only [List.mem_singleton] at h''
        subst h''
        simp
    · exact hB l h'
  have hne : ((if helpers.listnode then pyLines LISTNODE_HELPERS else []) ++
        (if helpers.treenode then pyLines TREENODE_HELPERS else []) ++ [""]) ++
      examples.flatMap (fun e =>
        match build_test_assertion e.1 e.2.1 method_name param_info return_type with
        | some a => [a, ""]
        | none => []) ≠ [] := by
    simp
  have hfA1 : (if helpers.listnode then pyLines LISTNODE_HELPERS else []).filter
      (fun l => strStarts "    assert " l) = [] := by
    cases helpers.listnode
    · rfl
    · decide
  have hfA2 : (if helpers.treenode then pyLines TREENODE_HELPERS else []).filter
      (fun l => strStarts "    assert " l) = [] := by
    cases helpers.treenode
    · rfl
    · decide
  have hmain : (pyLines (build_test_code examples method_name helpers param_info
        return_type)).filter (fun l => strStarts "    assert " l)
      = examples.filterMap
          (fun e => build_test_assertion e.1 e.2.1 method_name param_info return_type) := by
    unfold build_test_code
    rw [pyLines_pyUnlines hne hLS]
    rw [List.filter_append, List.filter_append, List.filter_append, hfA1, hfA2]
    simp only [List.nil_append]
    rw [show ([("" : String)].filter (fun l => strStarts "    assert " l)) = [] from rfl]
    simp only [List.nil_append]
    exact filter_flatMap_pairs _ _ examples
      (fun e _ s hs => (build_test_assertion_shape hs).1) (by decide)
  refine ⟨hmain, fun hall => ?_⟩
  rw [hmain]
  exact filterMap_length_all_isSome hall

/-- Witness for the amended C1 on the spec's Two Sum example: exactly the one
assertion, in place. -/
theorem build_test_code_assertions_witness :
    (pyLines (build_test_code [("nums = [2,7,11,15], target = 9", "[0,1]", "")]
        "twoSum" ⟨false, false⟩ [("nums", "List[int]"), ("target", "int")]
        "List[int]")).filter (fun l => strStarts "    assert " l)
      = ["    assert [0,1] == solution.twoSum([2,7,11,15], 9)"] := by
  have h := (build_test_code_assertions
    [("nums = [2,7,11,15], target = 9", "[0,1]", "")] "twoSum" ⟨false, false⟩
    [("nums", "List[int]"), ("target", "int")] "List[int]"
    (by decide) (by decide)).1
  rw [h]
  rfl

/-- A problem whose single extracted example has an input text with no
`name = value` pair. -/
def problemC1 : Problem :=
  ⟨7, "T", "t", "Easy", "Example 1:\nInput: trivial\nOutput: 5", "",
   [⟨"Python3", "class Solution:\n    def solve(self, x: int) -> int:\n        return x"⟩]⟩

set_option maxRecDepth 4000 in
/-- Counterexample to C1 as stated: one example is extracted from the
description, yet the generated file contains zero assertion statements — the
example's input text (`trivial`) parses to no parameters, so its assertion
is silently dropped. -/
theorem format_one_example_zero_assertions :
    (extract_test_examples problemC1.description).length = 1 ∧
    strCountSub "    assert " (format problemC1) = 0 := by
  constructor <;> rfl

/-! ### C3 and C8: structure of the generated file -/

theorem strHasSub_build_file_content_code {pat : String} (p : Problem)
    (d c t : String) (h : strHasSub pat c = true) :
    strHasSub pat (build_file_content p d c t) = true := by
  show hasSub pat.data (build_file_content p d c t).data = true
  unfold build_file_content
  simp only [str_data_append, List.append_assoc]
  iterate 17 apply hasSub_append_left
  exact hasSub_append_right _ h

theorem strHasSub_build_file_content_tests {pat : String} (p : Problem)
    (d c t : String) (h : strHasSub pat t = true) :
    strHasSub pat (build_file_content p d c t) = true := by
  show hasSub pat.data (build_file_content p d c t).data = true
  unfold build_file_content
  simp only [str_data_append, List.append_assoc]
  iterate 23 apply hasSub_append_left
  exact hasSub_append_right _ h

theorem build_file_content_has_run_tests (p : Problem) (d c t : String) :
    strHasSub "def run_tests():" (build_file_content p d c t) = true := by
  show hasSub "def run_tests():".data (build_file_content p d c t).data = true
  unfold build_file_content
  simp only [str_data_append, List.append_assoc]
  iterate 22 apply hasSub_append_left
  exact hasSub_append_right _ (by decide)

theorem build_file_content_has_main_guard (p : Problem) (d c t : String) :
    strHasSub "if __name__ == \"__main__\":" (build_file_content p d c t) = true := by
  show hasSub "if __name__ == \"__main__\":".data (build_file_content p d c t).data = true
  unfold build_file_content
  simp only [str_data_append, List.append_assoc]
  iterate 24 apply hasSub_append_left
  decide

theorem hasSub_of_infixOf {pat part l : List Char} (hs : hasSub pat part = true)
    (hinf : part <:+: l) : hasSub pat l = true := by
  obtain ⟨u, v, rfl⟩ := hinf
  rw [List.append_assoc]
  exact hasSub_append_left u (hasSub_append_right v hs)

theorem splitCh_head (sep : Char) (l : List Char) :
    ∃ t, splitCh sep l = l.takeWhile (· ≠ sep) :: t := by
  induction l with
  | nil => exact ⟨[], rfl⟩
  | cons c rest ih =>
    by_cases hc : c = sep
    · refine ⟨splitCh sep rest, ?_⟩
      simp [splitCh, hc, List.takeWhile_cons]
    · obtain ⟨t, ht⟩ := ih
      refine ⟨t, ?_⟩
      simp only [splitCh, ht, if_neg hc, List.takeWhile_cons]
      simp [hc]

theorem mem_splitCh_infixOf {sep : Char} {l part : List Char}
    (h : part ∈ splitCh sep l) : part <:+: l := by
  induction l generalizing part with
  | nil =>
    simp [splitCh] at h
    subst h
    exact ⟨[], [], rfl⟩
  | cons c rest ih =>
    simp only [splitCh] at h
    split at h
    · rcases List.mem_cons.mp h with h' | h'
      · subst h'
        exact ⟨[], c :: rest, rfl⟩
      · obtain ⟨u, v, huv⟩ := ih h'
        exact ⟨c :: u, v, by rw [← huv]; rfl⟩
    · cases hr : splitCh sep rest with
      | nil => exact absurd hr (splitCh_ne_nil sep rest)
      | cons hd tl =>
        rw [hr] at h
        rcases List.mem_cons.mp h with h' | h'
        · subst h'
          obtain ⟨t, htEq⟩ := splitCh_head sep rest
          rw [hr] at htEq
          obtain ⟨hd_eq, -⟩ := List.cons.inj htEq
          obtain ⟨v, hv⟩ := List.takeWhile_prefix (l := rest) (· ≠ sep)
          refine ⟨[], v, ?_⟩
          rw [hd_eq]
          show c :: (rest.takeWhile (· ≠ sep) ++ v) = c :: rest
          rw [hv]
        · obtain ⟨u, v, huv⟩ := ih (hr ▸ List.mem_cons_of_mem hd h')
          exact ⟨c :: u, v, by rw [← huv]; rfl⟩

theorem def_name_at_some_shape {l w : List Char} (h : def_name_at l = some w) :
    ∃ r0, l = 'd' :: 'e' :: 'f' :: r0 := by
  unfold def_name_at at h
  split at h
  · rename_i r0
    exact ⟨r0, rfl⟩
  · cases h

theorem def_name_search_none {l : List Char}
    (h : hasSub "def".data l = false) : def_name_search l = none := by
  induction l with
  | nil => rfl
  | cons c rest ih =>
    simp only [hasSub, Bool.or_eq_false_iff] at h
    rw [def_name_search]
    cases hat : def_name_at (c :: rest) with
    | some w =>
      obtain ⟨r0, heq⟩ := def_name_at_some_shape hat
      rw [heq] at h
      exact absurd h.1 (by simp [List.isPrefixOf])
    | none => exact ih h.2

theorem def_name_no_dunder_search_none {l : List Char}
    (h : hasSub "def".data l = false) : def_name_no_dunder_search l = none := by
  induction l with
  | nil => rfl
  | cons c rest ih =>
    simp only [hasSub, Bool.or_eq_false_iff] at h
    rw [def_name_no_dunder_search]
    cases hat : def_name_at (c :: rest) with
    | some w =>
      obtain ⟨r0, heq⟩ := def_name_at_some_shape hat
      rw [heq] at h
      exact absurd h.1 (by simp [List.isPrefixOf])
    | none => exact ih h.2

theorem extract_method_name_go_none :
    ∀ (lines : List String), (∀ l ∈ lines, hasSub "def".data l.data = false) →
      ∀ b, extract_method_name_go lines b = none := by
  intro lines
  induction lines with
  | nil => intro _ b; rfl
  | cons l rest ih =>
    intro h b
    have hdn : def_name_search l.data = none :=
      def_name_search_none (h l (List.mem_cons_self l rest))
    have ih' := ih (fun l' hl' => h l' (List.mem_cons_of_mem l hl'))
    rw [extract_method_name_go, hdn]
    split
    · exact ih' true
    · split
      · exact ih' (solution_scope_update b l)
      · exact ih' (solution_scope_update b l)

/-- With no `def` occurrence anywhere in the template (so no signature can be
parsed), `_extract_method_name` falls through both searches to the documented
default `'solve'`. -/
theorem extract_method_name_no_def {code : String}
    (h : strHasSub "def" code = false) : extract_method_name code = "solve" := by
  have hline : ∀ l ∈ pyLines code, hasSub "def".data l.data = false := by
    intro l hl
    rcases List.mem_map.mp hl with ⟨part, hpart, rfl⟩
    by_contra hne
    rw [Bool.not_eq_false] at hne
    have hcode : hasSub "def".data code.data = true :=
      hasSub_of_infixOf hne (mem_splitCh_infixOf hpart)
    have h2 : hasSub "def".data code.data = false := h
    rw [hcode] at h2
    simp at h2
  have hgo : extract_method_name_go (pyLines code) false = none :=
    extract_method_name_go_none (pyLines code) hline false
  have hnds : def_name_no_dunder_search code.data = none :=
    def_name_no_dunder_search_none h
  unfold extract_method_name
  rw [hgo, hnds]

theorem pyLines_ne_nil (s : String) : pyLines s ≠ [] := by
  unfold pyLines
  intro hE
  exact splitCh_ne_nil '\n' s.data (List.map_eq_nil_iff.mp hE)

theorem strHasSub_pyUnlines_head (l : String) (rest : List String) :
    strHasSub l (pyUnlines (l :: rest)) = true := by
  cases rest with
  | nil => exact strHasSub_refl l
  | cons b t =>
    show hasSub l.data (l.data ++ '\n' :: joinCh '\n' ((b :: t).map String.data)) = true
    exact hasSub_append_right _ (hasSub_refl l.data)

/-- C3: `format` is total by construction (every stage is a total function
of the record's string fields — nothing can raise), and each documented
degradation holds: a missing or empty `Python3` snippet yields a file
containing the placeholder solution; malformed HTML degrades to a pure
comment block (every emitted description line starts with `#`); a template
in which no signature can be parsed (no `def` at all) degrades to the
default method name `solve`; and missing examples degrade to the basic
test-case section — the commented skeleton when no raw test text exists, the
manual-assertions banner when it does. -/
theorem format_total_with_fallbacks :
    (∀ p : Problem,
      (get_snippet p "Python3" = none ∨ get_snippet p "Python3" = some "") →
      strHasSub "# No Python template available" (format p) = true) ∧
    (∀ (html : String), ∀ l ∈ pyLines (format_description html),
      strStarts "#" l = true) ∧
    (∀ code : String, strHasSub "def" code = false →
      extract_method_name code = "solve") ∧
    (∀ p : Problem, extract_test_examples p.description = [] →
      p.test_cases = "" →
      strHasSub "# Add your test cases here" (format p) = true) ∧
    (∀ p : Problem, extract_test_examples p.description = [] →
      p.test_cases ≠ "" →
      strHasSub "    # NOTE: Expected outputs not available - add assertions manually"
        (format p) = true) := by
  refine ⟨?_, ?_, ?_, ?_, ?_⟩
  · intro p hp
    have hc : get_python_code p = "# No Python template available" := by
      unfold get_python_code
      rcases hp with h | h
      · rw [h]
      · rw [h]; rfl
    exact strHasSub_build_file_content_code p (format_description p.description)
      (get_python_code p) (format_test_cases p (get_python_code p))
      (by rw [hc]; exact strHasSub_refl _)
  · intro html l hl
    unfold format_description at hl
    have hlines : ∀ l' ∈ (pyLines (pyStrip (html_to_text html))).map
        (fun l0 => if l0 ≠ "" then "# " ++ l0 else "#"), '\n' ∉ l'.data := by
      intro l' hl'
      rcases List.mem_map.mp hl' with ⟨l0, hl0, rfl⟩
      have h0 : '\n' ∉ l0.data := pyLines_noNL _ l0 hl0
      split
      · exact str_noNL_append (by decide) h0
      · decide
    have hne : (pyLines (pyStrip (html_to_text html))).map
        (fun l0 => if l0 ≠ "" then "# " ++ l0 else "#") ≠ [] := by
      intro hE
      exact pyLines_ne_nil (pyStrip (html_to_text html)) (List.map_eq_nil_iff.mp hE)
    rw [pyLines_pyUnlines hne hlines] at hl
    rcases List.mem_map.mp hl with ⟨l0, hl0, rfl⟩
    by_cases h0 : l0 ≠ ""
    · rw [if_pos h0]
      show ("#".data).isPrefixOf ("# " ++ l0).data = true
      rw [str_data_append]
      rw [show ("#".data).isPrefixOf ("# ".data ++ l0.data)
            = (("#".data).isPrefixOf (['#', ' '] ++ l0.data)) from rfl]
      simp [List.isPrefixOf]
    · rw [if_neg h0]
      decide
  · intro code h
    exact extract_method_name_no_def h
  · intro p hex htc
    have ht : format_test_cases p (get_python_code p) =
        "    # Add your test cases here\n    pass" := by
      unfold format_test_cases
      rw [hex]
      show format_basic_test_cases p.test_cases (get_python_code p) = _
      unfold format_basic_test_cases
      rw [htc]
      rfl
    exact strHasSub_build_file_content_tests p (format_description p.description)
      (get_python_code p) (format_test_cases p (get_python_code p))
      (by rw [ht]; decide)
  · intro p hex htc
    have ht : format_test_cases p (get_python_code p) =
        format_basic_test_cases p.test_cases (get_python_code p) := by
      unfold format_test_cases
      rw [hex]
      rfl
    have hb : strHasSub
        "    # NOTE: Expected outputs not available - add assertions manually"
        (format_basic_test_cases p.test_cases (get_python_code p)) = true := by
      unfold format_basic_test_cases
      rw [if_neg htc]
      exact strHasSub_pyUnlines_head
        "    # NOTE: Expected outputs not available - add assertions manually" _
    exact strHasSub_build_file_content_tests p (format_description p.description)
      (get_python_code p) (format_test_cases p (get_python_code p)) (ht ▸ hb)

/-- Witness for C3: a record with no snippets, no description and no raw
test cases gets the placeholder and the skeleton; one with raw test text
gets the banner; a no-`def` template gets method name `solve`; a
description line is emitted as a comment. -/
theorem format_total_with_fallbacks_witness :
    strHasSub "# No Python template available"
      (format ⟨3, "W", "w", "Easy", "", "", []⟩) = true ∧
    strStarts "#" "# x" = true ∧
    extract_method_name "x = 1" = "solve" ∧
    strHasSub "# Add your test cases here"
      (format ⟨3, "W", "w", "Easy", "", "", []⟩) = true ∧
    strHasSub "    # NOTE: Expected outputs not available - add assertions manually"
      (format ⟨4, "V", "v", "Easy", "", "1\n2", []⟩) = true := by
  refine ⟨?_, ?_, ?_, ?_, ?_⟩
  · exact format_total_with_fallbacks.1 ⟨3, "W", "w", "Easy", "", "", []⟩ (Or.inl rfl)
  · exact format_total_with_fallbacks.2.1 "x" "# x" (by decide)
  · exact format_total_with_fallbacks.2.2.1 "x = 1" (by decide)
  · exact format_total_with_fallbacks.2.2.2.1 ⟨3, "W", "w", "Easy", "", "", []⟩ rfl rfl
  · exact format_total_with_fallbacks.2.2.2.2 ⟨4, "V", "v", "Easy", "", "1\n2", []⟩
      rfl (by decide)

/-- C8 (amended): every generated file contains at least one `run_tests`
definition and at least one `__main__` guard — the fixed skeleton contributes
one of each, but template or description text can add further occurrences,
so "exactly one" holds only when the inputs do not contain the marker text
themselves. -/
theorem format_contains_markers (p : Problem) :
    strHasSub "def run_tests():" (format p) = true ∧
    strHasSub "if __name__ == \"__main__\":" (format p) = true :=
  ⟨build_file_content_has_run_tests p (format_description p.description)
      (get_python_code p) (format_test_cases p (get_python_code p)),
   build_file_content_has_main_guard p (format_description p.description)
      (get_python_code p) (format_test_cases p (get_python_code p))⟩

/-- A problem whose code template itself defines a `run_tests` function. -/
def problemC8 : Problem :=
  ⟨2, "G", "g", "Easy", "", "",
   [⟨"Python3",
     "def run_tests():\n    pass\n\nclass Solution:\n    def solve(self) -> int:\n        return 1"⟩]⟩

set_option maxRecDepth 4000 in
/-- Counterexample to C8 as stated: with a template containing its own
`def run_tests():` the generated file contains two such definitions, not
exactly one (the entry-point guard still occurs once). -/
theorem format_duplicate_run_tests :
    strCountSub "def run_tests():" (format problemC8) = 2 ∧
    strCountSub "if __name__ == \"__main__\":" (format problemC8) = 1 := by
  constructor <;> rfl

end ByteDojo
